import Mathlib

/-
Verification of the ext4rs filesystem driver against its specification.

This file shallowly embeds the Rust sources (src/bitmap.rs, src/extent.rs,
src/file.rs, src/directory.rs, src/inode.rs, src/superblock.rs,
src/block_group.rs, src/lib.rs) into Lean.  Conventions:

* Bytes are `Nat` values; byte buffers are `List Nat`.  Whenever the Rust
  code truncates to a machine width (`as u16`, `as u32`, wrapping ops) the
  embedding takes `% 2^w` explicitly.
* Fallible Rust code (`Ext4Result`) becomes `Except Ext4Error`.  Code that
  can panic (out-of-range slicing such as `copy_from_slice` with mismatched
  lengths, or unbounded recursion) is modelled with `Option`: `none` is a
  panic.  `Nat` subtraction and division are total in Lean; the source
  would panic on usize underflow or division by zero in debug builds, which
  no statement below exercises except where explicitly modelled.
* Stateful filesystem code becomes explicit state passing over `Fs`
  (device contents, parsed superblock, group descriptors, mount options):
  `FsM a = Fs -> Option (Except Ext4Error a × Fs)`.
* The block device is a total function from block number to byte list; a
  block read yields exactly `block_size` bytes (the Rust caller always
  supplies a zeroed buffer of that length which the driver fills).
-/

namespace Ext4

/-- The error taxonomy of `src/lib.rs` (`enum Ext4Error`). -/
inductive Ext4Error where
  | InvalidMagic
  | InvalidState
  | InodeNotFound
  | BlockNotFound
  | InvalidPath
  | FileExists
  | DirNotEmpty
  | NotADirectory
  | IsADirectory
  | InvalidInput
  | IoError
  | NoSpaceLeft
  | ReadOnly
  | InvalidArg
  | NotSupported
deriving DecidableEq, Repr, Inhabited

deriving instance DecidableEq for Except

/-- Little-endian u16 read at `off`, as in the Rust `read_u16` helpers. -/
def leU16 (d : List Nat) (off : Nat) : Nat :=
  d.getD off 0 + 256 * d.getD (off + 1) 0

/-- Little-endian u32 read at `off`, as in the Rust `read_u32` helpers. -/
def leU32 (d : List Nat) (off : Nat) : Nat :=
  d.getD off 0 + 256 * d.getD (off + 1) 0 + 65536 * d.getD (off + 2) 0 +
    16777216 * d.getD (off + 3) 0

/-- Store a u16 little-endian at `off` (Rust `write_u16`). -/
def writeU16At (d : List Nat) (off v : Nat) : List Nat :=
  (d.set off (v % 256)).set (off + 1) (v / 256 % 256)

/-- Store a u32 little-endian at `off` (Rust `write_u32`). -/
def writeU32At (d : List Nat) (off v : Nat) : List Nat :=
  (((d.set off (v % 256)).set (off + 1) (v / 256 % 256)).set
      (off + 2) (v / 65536 % 256)).set (off + 3) (v / 16777216 % 256)

/-- Number of set bits among the low 8 bits (Rust `u8::count_ones`). -/
def bitCount8 (b : Nat) : Nat :=
  ((List.range 8).map (fun i => (b >>> i) &&& 1)).sum

/-! ## Bitmap (src/bitmap.rs) -/

/-- `struct Bitmap` — a byte vector plus a size in bits. -/
structure Bitmap where
  data : List Nat
  size : Nat
deriving DecidableEq, Repr

/-- `Bitmap::from_bytes`: size is eight bits per byte. -/
def Bitmap.fromBytes (d : List Nat) : Bitmap :=
  ⟨d, d.length * 8⟩

/-- `Bitmap::new`: `ceil(size/8)` zero bytes. -/
def Bitmap.new (size : Nat) : Bitmap :=
  ⟨List.replicate ((size + 7) / 8) 0, size⟩

/-- `Bitmap::is_set`. -/
def Bitmap.isSet (b : Bitmap) (bit : Nat) : Bool :=
  if b.size ≤ bit then false
  else decide ((b.data.getD (bit / 8) 0) &&& (1 <<< (bit % 8)) ≠ 0)

/-- Inner loop of `Bitmap::find_first_free`: scan bits `0..8` of the byte at
`byteIndex`, returning the first in-range clear bit. -/
def Bitmap.findFreeInByte (b : Bitmap) (byteIndex : Nat) : List Nat → Option Nat
  | [] => none
  | bitIndex :: rest =>
    let bit := byteIndex * 8 + bitIndex
    if bit < b.size ∧ b.isSet bit = false then some bit
    else b.findFreeInByte byteIndex rest

/-- Outer loop of `Bitmap::find_first_free`: skip `0xFF` bytes, then scan. -/
def Bitmap.findFirstFreeGo (b : Bitmap) : Nat → List Nat → Option Nat
  | _, [] => none
  | byteIndex, byte :: rest =>
    if byte ≠ 0xFF then
      match b.findFreeInByte byteIndex (List.range 8) with
      | some bit => some bit
      | none => b.findFirstFreeGo (byteIndex + 1) rest
    else b.findFirstFreeGo (byteIndex + 1) rest

/-- `Bitmap::find_first_free`. -/
def Bitmap.findFirstFree (b : Bitmap) : Option Nat :=
  b.findFirstFreeGo 0 b.data

/-- `Bitmap::count_free`: popcount of complemented bytes, then subtract the
popcount of `last_byte & !mask` (the SET bits past `size` in the final
byte).  The `usize` subtraction may underflow in Rust; `Nat` subtraction
truncates at 0 — no statement below exercises that difference. -/
def Bitmap.countFree (b : Bitmap) : Nat :=
  let count := (b.data.map (fun bt => bitCount8 ((bt % 256) ^^^ 255))).sum
  let remainder := b.size % 8
  if remainder ≠ 0 then
    let mask := (1 <<< remainder) - 1
    count - bitCount8 ((b.data.getD (b.data.length - 1) 0) &&& ((mask ^^^ 255) % 256))
  else count

/-- Specification-side count (claim C4's words): the number of indices
`i < size` whose bit is 0. -/
def Bitmap.specCountFree (b : Bitmap) : Nat :=
  (List.range b.size).countP (fun i => b.isSet i = false)

/-! ## Extent records (src/extent.rs) -/

/-- `struct ExtentHeader`. -/
structure ExtentHeader where
  magic : Nat
  entries : Nat
  maxEntries : Nat
  depth : Nat
  generation : Nat
deriving DecidableEq, Repr

/-- `ExtentHeader::from_bytes`. -/
def ExtentHeader.fromBytes (d : List Nat) : Except Ext4Error ExtentHeader :=
  if d.length < 12 then .error .InvalidInput
  else
    let magic := leU16 d 0
    if magic ≠ 0xF30A then .error .InvalidInput
    else .ok ⟨magic, leU16 d 2, leU16 d 4, leU16 d 6, leU32 d 8⟩

/-- `struct Extent` (leaf record). -/
structure Extent where
  block : Nat
  len : Nat
  start : Nat
deriving DecidableEq, Repr

/-- `Extent::from_bytes` (src/extent.rs lines 84-94): `block` is the LE u32
at offset 0, `len` the LE u16 at offset 4, and `start` the LE u32 read at
offset 6 — the source does not recombine a high half at 6 with a low half
at 8. -/
def Extent.fromBytes (d : List Nat) : Except Ext4Error Extent :=
  if d.length < 12 then .error .InvalidInput
  else .ok ⟨leU32 d 0, leU16 d 4, leU32 d 6⟩

/-- `struct ExtentIndex`. -/
structure ExtentIndex where
  block : Nat
  leaf : Nat
deriving DecidableEq, Repr

/-- `ExtentIndex::from_bytes`. -/
def ExtentIndex.fromBytes (d : List Nat) : Except Ext4Error ExtentIndex :=
  if d.length < 12 then .error .InvalidInput
  else .ok ⟨leU32 d 0, leU32 d 4⟩

/-- `enum ExtentNode`. -/
inductive ExtentNode where
  | Leaf (extents : List Extent)
  | Index (indices : List ExtentIndex)
deriving DecidableEq, Repr

/-- Leaf-collection loop of `parse_extent_node`: read `count` records of 12
bytes starting at `offset`, stopping early when the buffer runs out. -/
def parseLeafGo (data : List Nat) : Nat → Nat → Except Ext4Error (List Extent)
  | _, 0 => .ok []
  | offset, n + 1 =>
    if data.length < offset + 12 then .ok []
    else do
      let e ← Extent.fromBytes ((data.drop offset).take 12)
      let rest ← parseLeafGo data (offset + 12) n
      pure (e :: rest)

/-- Index-collection loop of `parse_extent_node`. -/
def parseIndexGo (data : List Nat) : Nat → Nat → Except Ext4Error (List ExtentIndex)
  | _, 0 => .ok []
  | offset, n + 1 =>
    if data.length < offset + 12 then .ok []
    else do
      let e ← ExtentIndex.fromBytes ((data.drop offset).take 12)
      let rest ← parseIndexGo data (offset + 12) n
      pure (e :: rest)

/-- `parse_extent_node`. -/
def parseExtentNode (data : List Nat) : Except Ext4Error ExtentNode := do
  let header ← ExtentHeader.fromBytes data
  if header.depth = 0 then
    let extents ← parseLeafGo data 12 header.entries
    pure (.Leaf extents)
  else
    let indices ← parseIndexGo data 12 header.entries
    pure (.Index indices)

/-! ## File cursor (src/file.rs): seek family -/

/-- `u64::checked_add`. -/
def checkedAddU64 (a b : Nat) : Option Nat :=
  if a + b < 18446744073709551616 then some (a + b) else none

/-- `u64::checked_sub`. -/
def checkedSubU64 (a b : Nat) : Option Nat :=
  if b ≤ a then some (a - b) else none

/-! ## Inode (src/inode.rs) -/

/-- `struct Inode`.  `mode` is the raw u16 bit pattern (the crate's
`InodeMode::from_bits_truncate` keeps all 16 bits, since the declared flags
cover `0xFFFF`).  `block` is the 15-entry u32 array. -/
structure Inode where
  ino : Nat
  mode : Nat
  uid : Nat
  size : Nat
  atime : Nat
  ctime : Nat
  mtime : Nat
  dtime : Nat
  gid : Nat
  linksCount : Nat
  blocks : Nat
  flags : Nat
  version : Nat
  fileAcl : Nat
  dirAcl : Nat
  faddr : Nat
  block : List Nat
  generation : Nat
  faddrExt : Nat
  fileAclHigh : Nat
  sizeHigh : Nat
  obsoFaddr : Nat
  extraIsize : Nat
  checksum : Nat
  ctimeExtra : Nat
  mtimeExtra : Nat
  atimeExtra : Nat
  crtime : Nat
  crtimeExtra : Nat
  projid : Nat
deriving DecidableEq, Repr

/-- `InodeMode::IFDIR`. -/
def IFDIR : Nat := 0x4000

/-- `InodeMode::IFREG`. -/
def IFREG : Nat := 0x8000

/-- `Inode::new`: default inode (regular file, one link). -/
def Inode.new (ino : Nat) : Inode where
  ino := ino
  mode := IFREG
  uid := 0
  size := 0
  atime := 0
  ctime := 0
  mtime := 0
  dtime := 0
  gid := 0
  linksCount := 1
  blocks := 0
  flags := 0
  version := 0
  fileAcl := 0
  dirAcl := 0
  faddr := 0
  block := List.replicate 15 0
  generation := 0
  faddrExt := 0
  fileAclHigh := 0
  sizeHigh := 0
  obsoFaddr := 0
  extraIsize := 0
  checksum := 0
  ctimeExtra := 0
  mtimeExtra := 0
  atimeExtra := 0
  crtime := 0
  crtimeExtra := 0
  projid := 0

/-- `Inode::from_bytes`: byte-offset-driven parse of a ≥128-byte slice.
The 64-bit size recombines `size_high` (offset 140, present when the slice
is ≥156 bytes) with `size_lo` (offset 4); `blocks` is the 32-bit
`blocks_lo`. -/
def Inode.fromBytes (d : List Nat) (ino : Nat) : Except Ext4Error Inode :=
  if d.length < 128 then .error .InvalidInput
  else
    let sizeLo := leU32 d 4
    let ext156 := 156 ≤ d.length
    let ext160 := 160 ≤ d.length
    .ok {
      ino := ino
      mode := leU16 d 0
      uid := leU16 d 2
      size := (if ext156 then leU32 d 140 else 0) * 4294967296 + sizeLo
      atime := leU32 d 8
      ctime := leU32 d 12
      mtime := leU32 d 16
      dtime := leU32 d 20
      gid := leU16 d 24
      linksCount := leU16 d 26
      blocks := leU32 d 28
      flags := leU32 d 32
      version := leU32 d 36
      fileAcl := leU32 d 104
      dirAcl := leU32 d 108
      faddr := leU32 d 112
      block := (List.range 15).map (fun i => leU32 d (40 + i * 4))
      generation := leU32 d 100
      faddrExt := if ext160 then leU32 d 156 else 0
      fileAclHigh := if ext156 then leU32 d 144 else 0
      sizeHigh := if ext156 then leU32 d 140 else 0
      obsoFaddr := if ext156 then leU32 d 148 else 0
      extraIsize := leU16 d 116
      checksum := leU16 d 118
      ctimeExtra := if ext156 then leU32 d 120 else 0
      mtimeExtra := if ext156 then leU32 d 124 else 0
      atimeExtra := if ext156 then leU32 d 128 else 0
      crtime := if ext156 then leU32 d 132 else 0
      crtimeExtra := if ext156 then leU32 d 136 else 0
      projid := if ext160 then leU32 d 152 else 0 }

/-- `Inode::to_bytes`: always a full 256-byte image; `size` and `blocks`
are truncated to u32 (`as u32`) before the little-endian store. -/
def Inode.toBytes (ino : Inode) : List Nat :=
  let d := List.replicate 256 0
  let d := writeU16At d 0 ino.mode
  let d := writeU16At d 2 ino.uid
  let d := writeU32At d 4 (ino.size % 4294967296)
  let d := writeU32At d 8 ino.atime
  let d := writeU32At d 12 ino.ctime
  let d := writeU32At d 16 ino.mtime
  let d := writeU32At d 20 ino.dtime
  let d := writeU16At d 24 ino.gid
  let d := writeU16At d 26 ino.linksCount
  let d := writeU32At d 28 (ino.blocks % 4294967296)
  let d := writeU32At d 32 ino.flags
  let d := writeU32At d 36 ino.version
  let d := (List.range 15).foldl (fun acc i => writeU32At acc (40 + i * 4) (ino.block.getD i 0)) d
  let d := writeU32At d 100 ino.generation
  let d := writeU32At d 104 ino.fileAcl
  let d := writeU32At d 108 ino.dirAcl
  let d := writeU32At d 112 ino.faddr
  let d := writeU16At d 116 ino.extraIsize
  let d := writeU16At d 118 ino.checksum
  let d := writeU32At d 120 ino.ctimeExtra
  let d := writeU32At d 124 ino.mtimeExtra
  let d := writeU32At d 128 ino.atimeExtra
  let d := writeU32At d 132 ino.crtime
  let d := writeU32At d 136 ino.crtimeExtra
  let d := writeU32At d 140 ino.sizeHigh
  let d := writeU32At d 144 ino.fileAclHigh
  let d := writeU32At d 148 ino.obsoFaddr
  d

/-- `Inode::block_count`: `ceil(size / block_size)`. -/
def Inode.blockCount (ino : Inode) (blockSize : Nat) : Nat :=
  (ino.size + blockSize - 1) / blockSize

/-! ## File cursor (src/file.rs) -/

/-- `struct File`: an inode plus a u64 position. -/
structure File where
  inode : Inode
  position : Nat
deriving DecidableEq, Repr

/-- `File::new`. -/
def File.new (inode : Inode) : File := ⟨inode, 0⟩

/-- `File::seek`: reject `offset > size`, else set the position. -/
def File.seek (f : File) (offset : Nat) : Except Ext4Error Nat × File :=
  if f.inode.size < offset then (.error .InvalidInput, f)
  else (.ok offset, { f with position := offset })

/-- `File::seek_from_current`: checked u64 arithmetic from `position`, then
accept only results `≤ size`. -/
def File.seekFromCurrent (f : File) (offset : Int) : Except Ext4Error Nat × File :=
  let newPos := if 0 ≤ offset then checkedAddU64 f.position offset.toNat
                else checkedSubU64 f.position (-offset).toNat
  match newPos with
  | some pos =>
    if pos ≤ f.inode.size then (.ok pos, { f with position := pos })
    else (.error .InvalidInput, f)
  | none => (.error .InvalidInput, f)

/-- `File::seek_from_end`: checked u64 arithmetic from `size`; any result
that does not overflow or underflow is accepted. -/
def File.seekFromEnd (f : File) (offset : Int) : Except Ext4Error Nat × File :=
  let newPos := if 0 ≤ offset then checkedAddU64 f.inode.size offset.toNat
                else checkedSubU64 f.inode.size (-offset).toNat
  match newPos with
  | some pos => (.ok pos, { f with position := pos })
  | none => (.error .InvalidInput, f)

/-! ## Superblock, descriptors, filesystem state (src/superblock.rs,
src/block_group.rs, src/lib.rs) -/

/-- The fields of `struct SuperBlock` that the embedded operations consult.
The remaining on-disk fields do not influence any claim. -/
structure SuperBlock where
  magic : Nat
  state : Nat
  blockSize : Nat
  blocksCount : Nat
  blocksPerGroup : Nat
  inodesPerGroup : Nat
  inodesCount : Nat
  inodeSize : Nat
  featureIncompat : Nat
  freeBlocksCount : Nat
  freeInodesCount : Nat
  firstDataBlock : Nat
  revLevel : Nat
deriving DecidableEq, Repr

/-- `SuperBlock::validate`: magic must be `0xEF53` and the block size one
of 1024/2048/4096 (a non-clean `state` only logs a warning). -/
def SuperBlock.validate (sb : SuperBlock) : Except Ext4Error Unit :=
  if sb.magic ≠ 0xEF53 then .error .InvalidMagic
  else if sb.blockSize ≠ 1024 ∧ sb.blockSize ≠ 2048 ∧ sb.blockSize ≠ 4096 then
    .error .InvalidState
  else .ok ()

/-- `struct BlockGroupDescriptor` (the parsed fields). -/
structure BlockGroupDescriptor where
  blockBitmap : Nat
  inodeBitmap : Nat
  inodeTable : Nat
  freeBlocksCount : Nat
  freeInodesCount : Nat
  usedDirsCount : Nat
  flags : Nat
deriving DecidableEq, Repr, Inhabited

/-- `struct MountOptions`. -/
structure MountOptions where
  readOnly : Bool
  journaling : Bool
  execCheck : Bool
deriving DecidableEq, Repr

/-- `struct Ext4FileSystem`: the device (block number to byte list), the
parsed superblock, the descriptor vector, and mount options. -/
structure Fs where
  device : Nat → List Nat
  superblock : SuperBlock
  blockGroups : List BlockGroupDescriptor
  mountOptions : MountOptions

/-- The filesystem computation shape: explicit state passing; `none` is a
panic, `Except` carries the `Ext4Result`. -/
def FsM (α : Type) : Type :=
  Fs → Option (Except Ext4Error α × Fs)

instance : Monad FsM where
  pure a := fun fs => some (.ok a, fs)
  bind m f := fun fs =>
    match m fs with
    | none => none
    | some (.error e, fs') => some (.error e, fs')
    | some (.ok a, fs') => f a fs'

/-- Raise an `Ext4Error`. -/
def throwErr {α : Type} (e : Ext4Error) : FsM α :=
  fun fs => some (.error e, fs)

/-- A Rust panic (out-of-range slice, unbounded recursion). -/
def modelPanic {α : Type} : FsM α :=
  fun _ => none

/-- Lift a pure `Ext4Result` into the state shape (Rust `?` on a pure
call). -/
def liftE {α : Type} (r : Except Ext4Error α) : FsM α :=
  fun fs => some (r, fs)

/-- Read the current state (Rust `&self`). -/
def getFs : FsM Fs :=
  fun fs => some (.ok fs, fs)

/-- A read buffer's contents: the device fills the caller's zeroed
`block_size`-byte buffer, so the result is exactly `n` bytes. -/
def padBytes (l : List Nat) (n : Nat) : List Nat :=
  (l.map (· % 256) ++ List.replicate n 0).take n

/-- `Ext4FileSystem::read_block` with a caller buffer of `bufLen` bytes:
error unless the buffer length equals the superblock block size. -/
def fsReadBlock (block bufLen : Nat) : FsM (List Nat) :=
  fun fs =>
    if bufLen ≠ fs.superblock.blockSize then some (.error .InvalidInput, fs)
    else some (.ok (padBytes (fs.device block) bufLen), fs)

/-- `Ext4FileSystem::write_block`: read-only guard, buffer length check,
then update the device. -/
def writeBlock (block : Nat) (buf : List Nat) : FsM Unit :=
  fun fs =>
    if fs.mountOptions.readOnly then some (.error .ReadOnly, fs)
    else if buf.length ≠ fs.superblock.blockSize then some (.error .InvalidInput, fs)
    else some (.ok (), { fs with device := fun b => if b = block then buf else fs.device b })

/-- Loop body of `Ext4FileSystem::alloc_block`: scan the descriptors in
order (index `i`); for a descriptor with free blocks, read its block
bitmap and return the first free bit's block number; otherwise move on.
The u32 product-sum wraps (`% 2^32`). -/
def allocBlockGo : List BlockGroupDescriptor → Nat → FsM Nat
  | [], _ => fun fs => some (.error .NoSpaceLeft, fs)
  | bg :: rest, i => fun fs =>
    if 0 < bg.freeBlocksCount then
      match fsReadBlock bg.blockBitmap fs.superblock.blockSize fs with
      | none => none
      | some (.error e, fs') => some (.error e, fs')
      | some (.ok buf, fs') =>
        match (Bitmap.fromBytes buf).findFirstFree with
        | some bit =>
          some (.ok ((i * fs'.superblock.blocksPerGroup + bit) % 4294967296), fs')
        | none => allocBlockGo rest (i + 1) fs'
    else allocBlockGo rest (i + 1) fs

/-- `Ext4FileSystem::alloc_block`: read-only guard, then the descriptor
scan.  The found bit is not set and no counter is decremented. -/
def allocBlock : FsM Nat :=
  fun fs =>
    if fs.mountOptions.readOnly then some (.error .ReadOnly, fs)
    else allocBlockGo fs.blockGroups 0 fs

/-- Loop body of `Ext4FileSystem::alloc_inode` (same pattern against the
inode bitmaps, result `group * inodes_per_group + bit + 1`). -/
def allocInodeGo : List BlockGroupDescriptor → Nat → FsM Nat
  | [], _ => fun fs => some (.error .NoSpaceLeft, fs)
  | bg :: rest, i => fun fs =>
    if 0 < bg.freeInodesCount then
      match fsReadBlock bg.inodeBitmap fs.superblock.blockSize fs with
      | none => none
      | some (.error e, fs') => some (.error e, fs')
      | some (.ok buf, fs') =>
        match (Bitmap.fromBytes buf).findFirstFree with
        | some bit =>
          some (.ok ((i * fs'.superblock.inodesPerGroup + bit + 1) % 4294967296), fs')
        | none => allocInodeGo rest (i + 1) fs'
    else allocInodeGo rest (i + 1) fs

/-- `Ext4FileSystem::alloc_inode`. -/
def allocInode : FsM Nat :=
  fun fs =>
    if fs.mountOptions.readOnly then some (.error .ReadOnly, fs)
    else allocInodeGo fs.blockGroups 0 fs

/-! ## Extent-tree search (src/extent.rs) -/

/-- Linear scan of a leaf node's extents in `find_block_in_extent_node`:
first extent whose `[block, block+len)` contains `logical` yields
`start + (logical - block)` (u32 arithmetic). -/
def leafScan (logical : Nat) : List Extent → Option Nat
  | [] => none
  | e :: rest =>
    if e.block ≤ logical ∧ logical < (e.block + e.len) % 4294967296 then
      some ((e.start + (logical - e.block)) % 4294967296)
    else leafScan logical rest

/-- Index-selection loop of `find_block_in_extent_node`: choose the entry
whose range (up to the next sibling's `block`, or `u32::MAX` for the last)
contains `logical`. -/
def indexPick (logical : Nat) : List ExtentIndex → Option Nat
  | [] => none
  | [a] => if a.block ≤ logical ∧ logical < 4294967295 then some a.leaf else none
  | a :: b :: rest =>
    if a.block ≤ logical ∧ logical < b.block then some a.leaf
    else indexPick logical (b :: rest)

/-- `find_block_in_extent_node`: read the node's block, parse it, scan a
leaf or recurse through an index.  The source recursion is unbounded; a
chain of more than `2^32` child blocks must revisit a (u32 block, logical)
pair and therefore loops forever in Rust — modelled by the fuel running
out (`none`). -/
def findBlockInExtentNode : Nat → Nat → Nat → FsM Nat
  | 0, _, _ => modelPanic
  | fuel + 1, blockNum, logical => fun fs =>
    match fsReadBlock blockNum fs.superblock.blockSize fs with
    | none => none
    | some (.error e, fs') => some (.error e, fs')
    | some (.ok buf, fs') =>
      match parseExtentNode buf with
      | .error e => some (.error e, fs')
      | .ok (.Leaf extents) =>
        match leafScan logical extents with
        | some v => some (.ok v, fs')
        | none => some (.error .BlockNotFound, fs')
      | .ok (.Index indices) =>
        match indexPick logical indices with
        | some child => findBlockInExtentNode fuel child logical fs'
        | none => some (.error .BlockNotFound, fs')

/-- Inline-extent loop of `find_block_in_extent_tree`: for each entry index
`i`, the extent is read from the inode block array at words `1 + 3i`
(logical block), `2 + 3i` (len in the low half, start-hi in the high half)
and `3 + 3i` (start-lo).  A zero-length extent falls back to returning its
`block` word when `logical = 0`. -/
def inlineScanGo (blockArr : List Nat) (logical : Nat) : List Nat → Option Nat
  | [] => none
  | i :: rest =>
    let idx := 1 + i * 3
    if idx + 2 < 15 then
      let blk := blockArr.getD idx 0
      let len := (blockArr.getD (idx + 1) 0) &&& 0xFFFF
      let startHi := ((blockArr.getD (idx + 1) 0) >>> 16) &&& 0xFFFF
      let startLo := blockArr.getD (idx + 2) 0
      let start := (startHi <<< 16) ||| startLo
      if len = 0 ∧ logical = 0 then some blk
      else if blk ≤ logical ∧ 0 < len ∧ logical < (blk + len) % 4294967296 then
        some ((start + (logical - blk)) % 4294967296)
      else inlineScanGo blockArr logical rest
    else inlineScanGo blockArr logical rest

/-- `find_block_in_extent_tree`: detect an inline root by the magic in the
low 16 bits of `block[0]`; its entry count sits in the high 16 bits and
the depth is read from bits 32.. of the same u32 (always zero).  Otherwise
`block[0]` names the root node's block. -/
def findBlockInExtentTree (inodeBlock : List Nat) (logical : Nat) : FsM Nat :=
  fun fs =>
    let extentRoot := inodeBlock.getD 0 0
    if extentRoot &&& 0xFFFF = 0xF30A then
      let entries := (extentRoot >>> 16) &&& 0xFFFF
      let depth := (extentRoot >>> 32) &&& 0xFFFF
      if depth = 0 ∧ 0 < entries then
        match inlineScanGo inodeBlock logical (List.range (min entries 4)) with
        | some v => some (.ok v, fs)
        | none => some (.error .BlockNotFound, fs)
      else some (.error .BlockNotFound, fs)
    else if extentRoot = 0 then some (.error .BlockNotFound, fs)
    else findBlockInExtentNode 4294967296 extentRoot logical fs

/-! ## Logical-to-physical mapping (src/inode.rs) -/

/-- `Inode::get_indirect_block`: zero pointer is sparse; otherwise read the
indirect block and take the LE u32 at `index * 4`. -/
def Inode.getIndirectBlock (_self : Inode) (indirectBlock index blockSize : Nat) : FsM Nat :=
  fun fs =>
    if indirectBlock = 0 then some (.ok 0, fs)
    else
      match fsReadBlock indirectBlock blockSize fs with
      | none => none
      | some (.error e, fs') => some (.error e, fs')
      | some (.ok buf, fs') =>
        if buf.length < index * 4 + 4 then some (.error .InvalidInput, fs')
        else some (.ok (leU32 buf (index * 4)), fs')

/-- Validation applied to every produced block number in the traditional
path of `get_block_number`: 0 or `≥ blocks_count as u32` collapses to 0. -/
def validateBlockNum (fs : Fs) (bn : Nat) : Nat :=
  if bn = 0 ∨ fs.superblock.blocksCount % 4294967296 ≤ bn then 0 else bn

/-- `Inode::get_block_number`: extents delegate to the extent tree with the
logical index truncated to u32; the traditional path walks direct, singly,
doubly and triply indirect pointers, treating zero pointers as sparse and
validating results against `blocks_count`. -/
def Inode.getBlockNumber (self : Inode) (offset blockSize : Nat) : FsM Nat :=
  fun fs =>
    let blockIndex := offset / blockSize
    if fs.superblock.featureIncompat &&& 0x0040 ≠ 0 then
      findBlockInExtentTree self.block (blockIndex % 4294967296) fs
    else
      let ppb := blockSize / 4
      if blockIndex < 12 then
        some (.ok (validateBlockNum fs (self.block.getD blockIndex 0)), fs)
      else if blockIndex < 12 + ppb then
        let indirectIndex := blockIndex - 12
        if self.block.getD 12 0 = 0 then some (.ok 0, fs)
        else
          match self.getIndirectBlock (self.block.getD 12 0) (indirectIndex % 4294967296)
              blockSize fs with
          | none => none
          | some (.error e, fs') => some (.error e, fs')
          | some (.ok bn, fs') => some (.ok (validateBlockNum fs' bn), fs')
      else if blockIndex < 12 + ppb + ppb * ppb then
        let doublyIndex := blockIndex - 12 - ppb
        let firstLevel := doublyIndex / ppb
        let secondLevel := doublyIndex % ppb
        if self.block.getD 13 0 = 0 then some (.ok 0, fs)
        else
          match self.getIndirectBlock (self.block.getD 13 0) (firstLevel % 4294967296)
              blockSize fs with
          | none => none
          | some (.error e, fs') => some (.error e, fs')
          | some (.ok indirectBlock, fs') =>
            if indirectBlock = 0 then some (.ok 0, fs')
            else
              match self.getIndirectBlock indirectBlock (secondLevel % 4294967296)
                  blockSize fs' with
              | none => none
              | some (.error e, fs'') => some (.error e, fs'')
              | some (.ok bn, fs'') => some (.ok (validateBlockNum fs'' bn), fs'')
      else
        let triplyIndex := blockIndex - 12 - ppb - ppb * ppb
        let firstLevel := triplyIndex / (ppb * ppb)
        let remaining := triplyIndex % (ppb * ppb)
        let secondLevel := remaining / ppb
        let thirdLevel := remaining % ppb
        if self.block.getD 14 0 = 0 then some (.ok 0, fs)
        else
          match self.getIndirectBlock (self.block.getD 14 0) (firstLevel % 4294967296)
              blockSize fs with
          | none => none
          | some (.error e, fs') => some (.error e, fs')
          | some (.ok indirectBlock, fs') =>
            if indirectBlock = 0 then some (.ok 0, fs')
            else
              match self.getIndirectBlock indirectBlock (secondLevel % 4294967296)
                  blockSize fs' with
              | none => none
              | some (.error e, fs'') => some (.error e, fs'')
              | some (.ok doublyIndirect, fs'') =>
                if doublyIndirect = 0 then some (.ok 0, fs'')
                else
                  match self.getIndirectBlock doublyIndirect (thirdLevel % 4294967296)
                      blockSize fs'' with
                  | none => none
                  | some (.error e, fs3) => some (.error e, fs3)
                  | some (.ok bn, fs3) => some (.ok (validateBlockNum fs3 bn), fs3)

/-! ## Directory entries (src/directory.rs) -/

/-- `struct DirectoryEntry`; the name is kept as its UTF-8 byte sequence. -/
structure DirectoryEntry where
  ino : Nat
  recLen : Nat
  nameLen : Nat
  fileType : Nat
  name : List Nat
deriving DecidableEq, Repr

/-- Continuation-byte test for UTF-8 validation. -/
def isUtf8Cont (b : Nat) : Bool :=
  decide (0x80 ≤ b ∧ b ≤ 0xBF)

/-- `String::from_utf8` validity over a byte list (the standard UTF-8
well-formedness conditions, including the surrogate and range bounds). -/
def validUtf8 : List Nat → Bool
  | [] => true
  | b :: rest =>
    if b ≤ 0x7F then validUtf8 rest
    else if 0xC2 ≤ b ∧ b ≤ 0xDF then
      match rest with
      | c1 :: rest' => isUtf8Cont c1 && validUtf8 rest'
      | [] => false
    else if b = 0xE0 then
      match rest with
      | c1 :: c2 :: rest' => decide (0xA0 ≤ c1 ∧ c1 ≤ 0xBF) && isUtf8Cont c2 && validUtf8 rest'
      | _ => false
    else if (0xE1 ≤ b ∧ b ≤ 0xEC) ∨ b = 0xEE ∨ b = 0xEF then
      match rest with
      | c1 :: c2 :: rest' => isUtf8Cont c1 && isUtf8Cont c2 && validUtf8 rest'
      | _ => false
    else if b = 0xED then
      match rest with
      | c1 :: c2 :: rest' => decide (0x80 ≤ c1 ∧ c1 ≤ 0x9F) && isUtf8Cont c2 && validUtf8 rest'
      | _ => false
    else if b = 0xF0 then
      match rest with
      | c1 :: c2 :: c3 :: rest' =>
        decide (0x90 ≤ c1 ∧ c1 ≤ 0xBF) && isUtf8Cont c2 && isUtf8Cont c3 && validUtf8 rest'
      | _ => false
    else if 0xF1 ≤ b ∧ b ≤ 0xF3 then
      match rest with
      | c1 :: c2 :: c3 :: rest' =>
        isUtf8Cont c1 && isUtf8Cont c2 && isUtf8Cont c3 && validUtf8 rest'
      | _ => false
    else if b = 0xF4 then
      match rest with
      | c1 :: c2 :: c3 :: rest' =>
        decide (0x80 ≤ c1 ∧ c1 ≤ 0x8F) && isUtf8Cont c2 && isUtf8Cont c3 && validUtf8 rest'
      | _ => false
    else false

/-- `DirectoryEntry::from_bytes`. -/
def DirectoryEntry.fromBytes (d : List Nat) : Except Ext4Error DirectoryEntry :=
  if d.length < 8 then .error .InvalidInput
  else
    let ino := leU32 d 0
    let recLen := leU16 d 4
    let nameLen := d.getD 6 0
    let fileType := if 7 < d.length then d.getD 7 0 else 0
    if d.length < 8 + nameLen then .error .InvalidInput
    else
      let nameBytes := (d.drop 8).take nameLen
      if validUtf8 nameBytes then .ok ⟨ino, recLen, nameLen, fileType, nameBytes⟩
      else .error .InvalidInput

/-- One `DirectoryIterator::next` step per fuel unit.  Each recursive call
advances `offset` by a non-zero `rec_len`, so the walk takes at most
`data.length - offset` steps before stopping; the fuel is structural
bookkeeping only and `dirIterItems` supplies enough that it never runs
out. -/
def dirIterItemsGo (data : List Nat) : Nat → Nat → List (Except Ext4Error DirectoryEntry)
  | _, 0 => []
  | offset, fuel + 1 =>
    if data.length ≤ offset then []
    else
      -- the remaining slice `&data[offset..]` has length `data.length - offset`
      if data.length - offset < 8 then []
      else
        if leU32 (data.drop offset) 0 = 0 then
          if leU16 (data.drop offset) 4 = 0 then []
          else dirIterItemsGo data (offset + leU16 (data.drop offset) 4) fuel
        else if leU16 (data.drop offset) 4 = 0 then []
        else if data.length - offset < leU16 (data.drop offset) 4 then []
        else
          DirectoryEntry.fromBytes ((data.drop offset).take (leU16 (data.drop offset) 4)) ::
            dirIterItemsGo data (offset + leU16 (data.drop offset) 4) fuel

/-- `DirectoryIterator::next`, iterated to the end: the stream of entry
parse results.  Tombstones (`ino = 0`) are skipped by advancing `rec_len`;
`rec_len = 0` or a short tail stops the walk. -/
def dirIterItems (data : List Nat) (offset : Nat) : List (Except Ext4Error DirectoryEntry) :=
  dirIterItemsGo data offset (data.length + 1)

/-- `struct Directory`. -/
structure Directory where
  entries : List DirectoryEntry
deriving DecidableEq, Repr

/-- `Directory::from_bytes`: collect the parse-ok, non-tombstone,
non-empty-named entries; per-entry errors are logged and skipped. -/
def Directory.fromBytes (data : List Nat) : Except Ext4Error Directory :=
  .ok ⟨(dirIterItems data 0).filterMap (fun r =>
    match r with
    | .ok e => if e.ino ≠ 0 ∧ e.name ≠ [] then some e else none
    | .error _ => none)⟩

/-- `Directory::find_entry` by exact name equality. -/
def Directory.findEntry (d : Directory) (name : List Nat) : Option DirectoryEntry :=
  d.entries.find? (fun e => e.name = name)

/-- The spec's `padded(8 + name_len, 4)` — the packed size of an entry
before the u16 cast. -/
def paddedSize (nameLen : Nat) : Nat :=
  (8 + nameLen + 3) - (8 + nameLen + 3) % 4

/-- The per-entry packed size computed in `Directory::to_bytes`:
`((8 + name_len + 3) & !3) as u16`. -/
def dirEntrySize (e : DirectoryEntry) : Nat :=
  paddedSize e.name.length % 65536

/-- Wrapping u16 subtraction (Rust release semantics) for `a` already in
u16 range. -/
def u16sub (a b : Nat) : Nat :=
  (a + 65536 - b % 65536) % 65536

/-- The `rec_len` chosen for each entry in `Directory::to_bytes`: every
entry but the last uses its packed size; the last uses its packed size
when the u16 total exceeds 4096 and otherwise stretches to
`4096 - (total - size)`. -/
def Directory.recLens (entries : List DirectoryEntry) : List Nat :=
  let sizes := entries.map dirEntrySize
  let total := sizes.sum % 65536
  (List.range entries.length).map (fun i =>
    if i < entries.length - 1 then sizes.getD i 0
    else if 4096 < total then sizes.getD i 0
    else u16sub 4096 (u16sub total (sizes.getD i 0)))

/-- `Directory::entry_to_bytes_with_rec_len`: 8 header bytes, the name
bytes, then zero padding up to `rec_len`. -/
def entryToBytesWithRecLen (e : DirectoryEntry) (recLen : Nat) : List Nat :=
  let d := [e.ino % 256, e.ino / 256 % 256, e.ino / 65536 % 256, e.ino / 16777216 % 256,
            recLen % 256, recLen / 256 % 256, e.nameLen % 256, e.fileType % 256] ++ e.name
  d ++ List.replicate (recLen - d.length) 0

/-- `Directory::to_bytes`: serialize every entry with its computed
`rec_len` (the Rust function's `Ok` wrapper never fails). -/
def Directory.toBytes (d : Directory) : List Nat :=
  if d.entries = [] then []
  else ((d.entries.zip (Directory.recLens d.entries)).map
    (fun p => entryToBytesWithRecLen p.1 p.2)).flatten

/-! ## Filesystem operations (src/lib.rs) -/

/-- `enum InodeType`. -/
inductive InodeType where
  | File
  | Directory
  | CharDevice
  | BlockDevice
  | Fifo
  | Socket
  | SymLink
deriving DecidableEq, Repr

/-- Models `buf[..src.len()].copy_from_slice(&src)`: panics (`none`) when
the source is longer than the buffer. -/
def copyIntoBuf (buf src : List Nat) : Option (List Nat) :=
  if src.length ≤ buf.length then some (src ++ buf.drop src.length) else none

/-- Models `buf[off..off+len].copy_from_slice(&src)`: panics unless the
range is inside `buf` and `src` has exactly `len` bytes. -/
def spliceAt (buf : List Nat) (off len : Nat) (src : List Nat) : Option (List Nat) :=
  if off + len ≤ buf.length ∧ src.length = len then
    some (buf.take off ++ src ++ buf.drop (off + len))
  else none

/-- One `slice::chunks` step per fuel unit; each step drops `n ≥ 1`
elements, so `l.length + 1` fuel always suffices. -/
def chunksOfGo (n : Nat) : List Nat → Nat → List (List Nat)
  | _, 0 => []
  | l, fuel + 1 =>
    if n = 0 then []
    else if l = [] then []
    else l.take n :: chunksOfGo n (l.drop n) fuel

/-- `slice::chunks` (the chunk size is never 0 at the call sites; Rust
would panic there, modelled as the empty list). -/
def chunksOf (l : List Nat) (n : Nat) : List (List Nat) :=
  chunksOfGo n l (l.length + 1)

/-- `Ext4FileSystem::get_inode`: locate the inode's table block via its
group descriptor, read it, and parse the `inode_size` slice.  A slice that
would fall outside the block is a Rust panic (`none`). -/
def getInode (inoNum : Nat) : FsM Inode :=
  fun fs =>
    let bg := (inoNum - 1) / fs.superblock.inodesPerGroup
    let idx := (inoNum - 1) % fs.superblock.inodesPerGroup
    if fs.blockGroups.length ≤ bg then some (.error .InodeNotFound, fs)
    else
      let desc := fs.blockGroups.getD bg default
      let isz := fs.superblock.inodeSize
      let ipb := fs.superblock.blockSize / isz
      let boff := idx / ipb
      let ioff := (idx % ipb) * isz
      let buf := padBytes (fs.device (desc.inodeTable + boff)) fs.superblock.blockSize
      if buf.length < ioff + isz then none
      else
        match Inode.fromBytes ((buf.drop ioff).take isz) inoNum with
        | .ok i => some (.ok i, fs)
        | .error e => some (.error e, fs)

/-- `Ext4FileSystem::write_inode`: read the containing table block, splice
the 256-byte inode image over the `inode_size` slice (a Rust panic unless
`inode_size = 256`), and write the block back. -/
def writeInode (ino : Inode) : FsM Unit :=
  fun fs =>
    let bg := (ino.ino - 1) / fs.superblock.inodesPerGroup
    let idx := (ino.ino - 1) % fs.superblock.inodesPerGroup
    if fs.blockGroups.length ≤ bg then some (.error .InodeNotFound, fs)
    else
      let desc := fs.blockGroups.getD bg default
      let isz := fs.superblock.inodeSize
      let ipb := fs.superblock.blockSize / isz
      let boff := idx / ipb
      let ioff := (idx % ipb) * isz
      match fsReadBlock (desc.inodeTable + boff) fs.superblock.blockSize fs with
      | none => none
      | some (.error e, fs') => some (.error e, fs')
      | some (.ok buf, fs') =>
        match spliceAt buf ioff isz ino.toBytes with
        | none => none
        | some buf' => writeBlock (desc.inodeTable + boff) buf' fs'

/-- The current superblock block size. -/
def getBlockSize : FsM Nat :=
  fun fs => some (.ok fs.superblock.blockSize, fs)

/-- The directory-data gathering loop shared by `find_inode`, `read_dir`
and `add_dir_entry`: for each logical block index, resolve the physical
block, skip zeros, read and concatenate. -/
def gatherDirGo (ino : Inode) (bs : Nat) : List Nat → FsM (List Nat)
  | [] => pure []
  | i :: rest => do
    let bn ← ino.getBlockNumber (i * bs) bs
    if bn = 0 then gatherDirGo ino bs rest
    else do
      let buf ← fsReadBlock bn bs
      let restData ← gatherDirGo ino bs rest
      pure (buf ++ restData)

/-- Read all blocks of a directory inode, in logical order. -/
def gatherDirData (ino : Inode) (bs : Nat) : FsM (List Nat) :=
  gatherDirGo ino bs (List.range (ino.blockCount bs))

/-- `Ext4FileSystem::read_dir`. -/
def readDir (inoNum : Nat) : FsM (List DirectoryEntry) := do
  let inode ← getInode inoNum
  if inode.mode &&& IFDIR ≠ IFDIR then throwErr .NotADirectory
  else do
    let bs ← getBlockSize
    let dirData ← gatherDirData inode bs
    let dir ← liftE (Directory.fromBytes dirData)
    pure dir.entries

/-- `Inode::set_indirect_block`. -/
def Inode.setIndirectBlock (_self : Inode) (indirectBlock index blockNum blockSize : Nat) :
    FsM Unit := do
  if indirectBlock = 0 then throwErr .InvalidInput
  else do
    let buf ← fsReadBlock indirectBlock blockSize
    if buf.length < index * 4 + 4 then throwErr .InvalidInput
    else writeBlock indirectBlock (writeU32At buf (index * 4) blockNum)

/-- `Inode::set_block`: mirror of `get_block_number` that allocates and
zero-initialises missing indirect blocks; returns the updated inode
(`&mut self`). -/
def Inode.setBlock (self : Inode) (blockIndex blockNum blockSize : Nat) : FsM Inode := do
  let ppb := blockSize / 4
  if blockIndex < 12 then
    pure { self with block := self.block.set blockIndex blockNum }
  else if blockIndex < 12 + ppb then
    let indirectIndex := blockIndex - 12
    if self.block.getD 12 0 = 0 then do
      let newIndirect ← allocBlock
      let self' := { self with block := self.block.set 12 newIndirect }
      writeBlock newIndirect (List.replicate blockSize 0)
      self'.setIndirectBlock (self'.block.getD 12 0) (indirectIndex % 4294967296) blockNum
        blockSize
      pure self'
    else do
      self.setIndirectBlock (self.block.getD 12 0) (indirectIndex % 4294967296) blockNum
        blockSize
      pure self
  else if blockIndex < 12 + ppb + ppb * ppb then
    let doublyIndex := blockIndex - 12 - ppb
    let firstLevel := doublyIndex / ppb
    let secondLevel := doublyIndex % ppb
    let pair ← (do
      if self.block.getD 13 0 = 0 then do
        let newDoubly ← allocBlock
        let self' := { self with block := self.block.set 13 newDoubly }
        writeBlock newDoubly (List.replicate blockSize 0)
        pure self'
      else pure self : FsM Inode)
    let self' := pair
    let indirectBlock ← self'.getIndirectBlock (self'.block.getD 13 0)
      (firstLevel % 4294967296) blockSize
    if indirectBlock = 0 then do
      let newIndirect ← allocBlock
      self'.setIndirectBlock (self'.block.getD 13 0) (firstLevel % 4294967296) newIndirect
        blockSize
      writeBlock newIndirect (List.replicate blockSize 0)
      self'.setIndirectBlock newIndirect (secondLevel % 4294967296) blockNum blockSize
      pure self'
    else do
      self'.setIndirectBlock indirectBlock (secondLevel % 4294967296) blockNum blockSize
      pure self'
  else
    let triplyIndex := blockIndex - 12 - ppb - ppb * ppb
    let firstLevel := triplyIndex / (ppb * ppb)
    let remaining := triplyIndex % (ppb * ppb)
    let secondLevel := remaining / ppb
    let thirdLevel := remaining % ppb
    let self' ← (do
      if self.block.getD 14 0 = 0 then do
        let newTriply ← allocBlock
        let s := { self with block := self.block.set 14 newTriply }
        writeBlock newTriply (List.replicate blockSize 0)
        pure s
      else pure self : FsM Inode)
    let doublyBlock ← self'.getIndirectBlock (self'.block.getD 14 0)
      (firstLevel % 4294967296) blockSize
    let doublyIndirect ← (do
      if doublyBlock = 0 then do
        let newDoubly ← allocBlock
        self'.setIndirectBlock (self'.block.getD 14 0) (firstLevel % 4294967296) newDoubly
          blockSize
        writeBlock newDoubly (List.replicate blockSize 0)
        pure newDoubly
      else pure doublyBlock : FsM Nat)
    let singlyBlock ← self'.getIndirectBlock doublyIndirect (secondLevel % 4294967296)
      blockSize
    let singlyIndirect ← (do
      if singlyBlock = 0 then do
        let newSingly ← allocBlock
        self'.setIndirectBlock doublyIndirect (secondLevel % 4294967296) newSingly blockSize
        writeBlock newSingly (List.replicate blockSize 0)
        pure newSingly
      else pure singlyBlock : FsM Nat)
    self'.setIndirectBlock singlyIndirect (thirdLevel % 4294967296) blockNum blockSize
    pure self'

/-- The block-allocation loop of `add_dir_entry` (for each missing logical
index, `alloc_block` then `set_block`). -/
def allocMissingGo (bs : Nat) : Inode → List Nat → FsM Inode
  | ino, [] => pure ino
  | ino, i :: rest => do
    let newBlock ← allocBlock
    let ino' ← ino.setBlock i newBlock bs
    allocMissingGo bs ino' rest

/-- The chunk-writing loop of `add_dir_entry`: resolve each chunk's block
(zero is `BlockNotFound`), copy the chunk into a zeroed block buffer and
write it. -/
def writeChunksGo (ino : Inode) (bs : Nat) : Nat → List (List Nat) → FsM Unit
  | _, [] => pure ()
  | i, c :: rest => do
    let bn ← ino.getBlockNumber (i * bs) bs
    if bn = 0 then throwErr .BlockNotFound
    else
      match copyIntoBuf (List.replicate bs 0) c with
      | none => modelPanic
      | some buf => do
        writeBlock bn buf
        writeChunksGo ino bs (i + 1) rest

/-- `Ext4FileSystem::add_dir_entry`: re-read and re-parse the directory,
append the new entry, serialize, grow the inode if needed, write the data
blocks back and persist the inode. -/
def addDirEntry (dirIno inoNum : Nat) (name : List Nat) (fileType : InodeType) :
    FsM Unit := do
  let dirInode ← getInode dirIno
  let bs ← getBlockSize
  let dirData ← gatherDirData dirInode bs
  let dir ← liftE (Directory.fromBytes dirData)
  let fileTypeNum : Nat :=
    match fileType with
    | .File => 1
    | .Directory => 2
    | .CharDevice => 3
    | .BlockDevice => 4
    | .Fifo => 5
    | .Socket => 6
    | .SymLink => 7
  let dir := Directory.mk (dir.entries ++
    [⟨inoNum, (8 + name.length % 65536) % 65536, name.length % 256, fileTypeNum, name⟩])
  let newDirData := dir.toBytes
  let requiredBlocks := (newDirData.length + bs - 1) / bs
  let currentBlocks := dirInode.blockCount bs
  let updatedInode ← allocMissingGo bs dirInode
    (List.range' currentBlocks (requiredBlocks - currentBlocks))
  writeChunksGo updatedInode bs 0 (chunksOf newDirData bs)
  let updatedInode := { updatedInode with
    size := newDirData.length
    blocks := (newDirData.length + bs - 1) / bs }
  writeInode updatedInode

/-- The body of `Ext4FileSystem::create_dir` after its read-only guard,
with each `?` written as an explicit match on the previous step. -/
def createDirBody (parent : Nat) (name : List Nat) (mode : Nat) : FsM Nat := fun fs =>
  match getInode parent fs with
  | none => none
  | some (.error e, fs1) => some (.error e, fs1)
  | some (.ok parentInode, fs1) =>
    if parentInode.mode &&& IFDIR ≠ IFDIR then some (.error .NotADirectory, fs1)
    else
      match readDir parent fs1 with
      | none => none
      | some (.error e, fs2) => some (.error e, fs2)
      | some (.ok dirEntries, fs2) =>
        if dirEntries.any (fun e => e.name = name) then some (.error .FileExists, fs2)
        else
          match allocInode fs2 with
          | none => none
          | some (.error e, fs3) => some (.error e, fs3)
          | some (.ok newIno, fs3) =>
            let newInode := { Inode.new newIno with mode := mode ||| IFDIR }
            match allocBlock fs3 with
            | none => none
            | some (.error e, fs4) => some (.error e, fs4)
            | some (.ok blockNum, fs4) =>
              let dir := Directory.mk
                [⟨newIno, 12, 1, 2, [46]⟩, ⟨parent, 12, 2, 2, [46, 46]⟩]
              let dirData := dir.toBytes
              match copyIntoBuf (List.replicate fs4.superblock.blockSize 0) dirData with
              | none => none
              | some blockBuf =>
                match writeBlock blockNum blockBuf fs4 with
                | none => none
                | some (.error e, fs5) => some (.error e, fs5)
                | some (.ok _, fs5) =>
                  let updatedInode := { newInode with
                    block := newInode.block.set 0 blockNum
                    size := dirData.length
                    blocks := 1 }
                  match writeInode updatedInode fs5 with
                  | none => none
                  | some (.error e, fs6) => some (.error e, fs6)
                  | some (.ok _, fs6) =>
                    match addDirEntry parent newIno name .Directory fs6 with
                    | none => none
                    | some (.error e, fs7) => some (.error e, fs7)
                    | some (.ok _, fs7) => some (.ok newIno, fs7)

/-- `Ext4FileSystem::create_dir`: read-only mounts fail up front. -/
def createDir (parent : Nat) (name : List Nat) (mode : Nat) : FsM Nat :=
  fun fs =>
    if fs.mountOptions.readOnly then some (.error .ReadOnly, fs)
    else createDirBody parent name mode fs

/-- The body of `Ext4FileSystem::create_file` after its read-only guard. -/
def createFileBody (parent : Nat) (name : List Nat) (mode : Nat) : FsM Nat := do
  let parentInode ← getInode parent
  if parentInode.mode &&& IFDIR ≠ IFDIR then throwErr .NotADirectory
  else do
    let dirEntries ← readDir parent
    if dirEntries.any (fun e => e.name = name) then throwErr .FileExists
    else do
      let newIno ← allocInode
      let newInode := { Inode.new newIno with mode := mode ||| IFREG }
      writeInode newInode
      addDirEntry parent newIno name .File
      pure newIno

/-- `Ext4FileSystem::create_file`: read-only mounts fail up front. -/
def createFile (parent : Nat) (name : List Nat) (mode : Nat) : FsM Nat :=
  fun fs =>
    if fs.mountOptions.readOnly then some (.error .ReadOnly, fs)
    else createFileBody parent name mode fs

/-! ## Concrete fixtures -/

/-- A 12-byte leaf extent record with `ee_len = 3`, a zero high half at
offset 6 and the little-endian u32 value 100 at offset 8. -/
def c1Record : List Nat := [0, 0, 0, 0, 3, 0, 0, 0, 100, 0, 0, 0]

/-- The inode block array holding an inline extent root in the standard
ext4 layout: word 0 is magic `0xF30A` with entry count 1 in the high half
(`0x1F30A`), word 1 is `max_entries = 4` with depth 0, word 2 the
generation, and words 3..5 the single extent
`(first_logical 0, len 3, start_hi 0, start_lo 100)`. -/
def stdInlineBlock : List Nat :=
  [127754, 4, 0, 0, 3, 100, 0, 0, 0, 0, 0, 0, 0, 0, 0]

/-- An inode carrying the standard-layout inline extent root. -/
def extentInode : Inode := { Inode.new 12 with block := stdInlineBlock }

/-- A superblock with `INCOMPAT_EXTENTS` set and 4096-byte blocks. -/
def extSb : SuperBlock where
  magic := 0xEF53
  state := 1
  blockSize := 4096
  blocksCount := 1000
  blocksPerGroup := 32768
  inodesPerGroup := 8192
  inodesCount := 128
  inodeSize := 256
  featureIncompat := 0x40
  freeBlocksCount := 100
  freeInodesCount := 100
  firstDataBlock := 0
  revLevel := 1

/-- A filesystem stub whose lookups never touch the device (the inline
extent path reads only the inode's block array). -/
def extFs : Fs where
  device := fun _ => []
  superblock := extSb
  blockGroups := []
  mountOptions := ⟨false, true, false⟩

/-! ## Claims -/

/-- C1: the claim says `Extent::from_bytes` reconstructs the physical
start from the 16-bit high half at offset 6 and the 32-bit low half at
offset 8, so a record with a zero high half decodes to the LE u32 at
offset 8.  The source instead reads the start as the LE u32 at offset 6:
on a record with high half 0 and low half 100 it decodes 6553600
(`100 << 16`), not 100. -/
theorem extent_fromBytes_start_misdecoded :
    Extent.fromBytes c1Record = .ok ⟨0, 3, 6553600⟩ ∧
    leU16 c1Record 6 = 0 ∧ leU32 c1Record 8 = 100 ∧ (6553600 : Nat) ≠ 100 := by
  decide

/-- C2: the claim describes the inline extent root with the on-disk ext4
layout (12-byte header, then leaf extents) and expects 100, 101, 102 and
`BlockNotFound` for logical blocks 0..3.  The source starts reading
extents at word 1 of the block array — inside the 12-byte header — so on
the standard layout it returns the `max_entries` word (4) for logical 0
(via the zero-length fallback) and `BlockNotFound` for logical 1. -/
theorem inline_extent_standard_layout_misread :
    Inode.getBlockNumber extentInode 0 4096 extFs = some (.ok 4, extFs) ∧
    Inode.getBlockNumber extentInode 4096 4096 extFs =
      some (.error .BlockNotFound, extFs) ∧
    (4 : Nat) ≠ 100 := by
  exact ⟨rfl, rfl, by decide⟩

/-- C4: the claim says `count_free` subtracts the count of FREE bits past
`size` in the final byte, returning the number of free indices below
`size`.  The source subtracts the count of SET bits past `size`: for
`Bitmap::new(4)` (one zero byte, size 4) it returns 8, not the 4 free
in-range bits. -/
theorem countFree_new4_miscounts :
    Bitmap.countFree (Bitmap.new 4) = 8 ∧ Bitmap.specCountFree (Bitmap.new 4) = 4 := by
  decide

/-- C9: over an inode of size 2048, `seek(2048)` succeeds and `seek`
fails exactly beyond the size; `seek(2049)` fails; `seek_from_end(-100)`
succeeds with position 1948; `seek_from_current(-20)` from position 10
fails on checked-subtraction underflow. -/
theorem seek_bounds_size2048 (f : File) (h : f.inode.size = 2048) :
    (f.seek 2048).1 = .ok 2048 ∧
    (∀ p, (f.seek p).1 = .error .InvalidInput ↔ 2048 < p) ∧
    (f.seek 2049).1 = .error .InvalidInput ∧
    (f.seekFromEnd (-100)).1 = .ok 1948 ∧
    (f.seekFromEnd (-100)).2.position = 1948 ∧
    (f.position = 10 → (f.seekFromCurrent (-20)).1 = .error .InvalidInput) := by
  refine ⟨?_, ?_, ?_, ?_, ?_, ?_⟩
  · simp [File.seek, h]
  · intro p
    by_cases hp : 2048 < p <;> simp [File.seek, h, hp]
  · simp [File.seek, h]
  · simp [File.seekFromEnd, checkedSubU64, h]
  · simp [File.seekFromEnd, checkedSubU64, h]
  · intro hpos
    simp [File.seekFromCurrent, checkedSubU64, hpos]

/-- Witness for C9 at a concrete cursor of size 2048 and position 10. -/
theorem seek_bounds_size2048_witness :
    (({ inode := { Inode.new 7 with size := 2048 }, position := 10 } : File).seek 2048).1 =
      .ok 2048 ∧
    (({ inode := { Inode.new 7 with size := 2048 }, position := 10 } : File).seekFromEnd
      (-100)).1 = .ok 1948 ∧
    (({ inode := { Inode.new 7 with size := 2048 }, position := 10 } : File).seekFromCurrent
      (-20)).1 = .error .InvalidInput := by
  have h := seek_bounds_size2048
    { inode := { Inode.new 7 with size := 2048 }, position := 10 } rfl
  exact ⟨h.1, h.2.2.2.1, h.2.2.2.2.2 rfl⟩

/-- C10: `seek_from_end` with a non-negative offset `k` accepts and sets
the position to `size + k` whenever the u64 addition does not overflow —
a position strictly beyond the end for `k > 0` — while `seek` and
`seek_from_current` only ever land at positions `≤ size`. -/
theorem seekFromEnd_past_eof (f : File) (k : Nat) (h : f.inode.size + k < 2 ^ 64) :
    (f.seekFromEnd (k : Int)).1 = .ok (f.inode.size + k) ∧
    (f.seekFromEnd (k : Int)).2.position = f.inode.size + k ∧
    (0 < k → f.inode.size < f.inode.size + k) ∧
    (∀ p p' f', f.seek p = (.ok p', f') → p' ≤ f.inode.size) ∧
    (∀ d p f', f.seekFromCurrent d = (.ok p, f') → p ≤ f.inode.size) := by
  have h' : f.inode.size + k < 18446744073709551616 := by norm_num at h; exact h
  have h0 : (0 : Int) ≤ (k : Int) := Int.ofNat_nonneg k
  have htn : ((k : Int)).toNat = k := Int.toNat_natCast k
  refine ⟨?_, ?_, fun hk => by omega, ?_, ?_⟩
  · simp [File.seekFromEnd, h0, htn, checkedAddU64, h']
  · simp [File.seekFromEnd, h0, htn, checkedAddU64, h']
  · intro p p' f' hseek
    unfold File.seek at hseek
    by_cases hp : f.inode.size < p
    · simp [hp] at hseek
    · simp [hp] at hseek
      omega
  · intro d p f' hseek
    unfold File.seekFromCurrent at hseek
    rcases hnp : (if 0 ≤ d then checkedAddU64 f.position d.toNat
        else checkedSubU64 f.position (-d).toNat) with _ | pos
    · simp [hnp] at hseek
    · simp [hnp] at hseek
      by_cases hle : pos ≤ f.inode.size
      · simp [hle] at hseek
        omega
      · simp [hle] at hseek

/-- Witness for C10 at size 10, `k = 5`. -/
theorem seekFromEnd_past_eof_witness :
    (({ inode := { Inode.new 7 with size := 10 }, position := 0 } : File).seekFromEnd
      ((5 : Nat) : Int)).1 = .ok 15 := by
  have h := seekFromEnd_past_eof
    { inode := { Inode.new 7 with size := 10 }, position := 0 } 5 (by norm_num)
  exact h.1

/-- A read-only-mounted filesystem stub for the C8 witness. -/
def roFs : Fs where
  device := fun _ => []
  superblock := extSb
  blockGroups := []
  mountOptions := ⟨true, true, false⟩

/-- C8: with `mount_options.read_only` set, `write_block`, `alloc_block`,
`alloc_inode`, `create_file` and `create_dir` all fail with `ReadOnly`
regardless of their arguments, returning the state unchanged (so neither
the in-memory filesystem nor the device is modified). -/
theorem readOnly_rejects_mutators (fs : Fs) (h : fs.mountOptions.readOnly = true)
    (b : Nat) (buf : List Nat) (parent : Nat) (name : List Nat) (mode : Nat) :
    writeBlock b buf fs = some (.error .ReadOnly, fs) ∧
    allocBlock fs = some (.error .ReadOnly, fs) ∧
    allocInode fs = some (.error .ReadOnly, fs) ∧
    createFile parent name mode fs = some (.error .ReadOnly, fs) ∧
    createDir parent name mode fs = some (.error .ReadOnly, fs) := by
  refine ⟨?_, ?_, ?_, ?_, ?_⟩ <;>
    simp [writeBlock, allocBlock, allocInode, createFile, createDir, h]

/-- Witness for C8 on a concrete read-only mount. -/
theorem readOnly_rejects_mutators_witness :
    writeBlock 3 [] roFs = some (.error .ReadOnly, roFs) ∧
    allocBlock roFs = some (.error .ReadOnly, roFs) ∧
    allocInode roFs = some (.error .ReadOnly, roFs) ∧
    createFile 2 [102] 0 roFs = some (.error .ReadOnly, roFs) ∧
    createDir 2 [100] 0 roFs = some (.error .ReadOnly, roFs) :=
  readOnly_rejects_mutators roFs rfl 3 [] 2 [102] 0

/-- The inner byte scan over `range' start n` finds the least qualifying
bit at or past `start`. -/
lemma findFreeInByte_go_finds (bm : Bitmap) (byteIndex : Nat) :
    ∀ (n start j : Nat), start ≤ j → j < start + n →
    (byteIndex * 8 + j < bm.size ∧ bm.isSet (byteIndex * 8 + j) = false) →
    (∀ j', start ≤ j' → j' < j →
      ¬(byteIndex * 8 + j' < bm.size ∧ bm.isSet (byteIndex * 8 + j') = false)) →
    bm.findFreeInByte byteIndex (List.range' start n) = some (byteIndex * 8 + j) := by
  intro n
  induction n with
  | zero => intro start j h1 h2; omega
  | succ n ih =>
    intro start j h1 h2 hfree hleast
    rw [List.range'_succ]
    unfold Bitmap.findFreeInByte
    by_cases hj : j = start
    · subst hj
      rw [if_pos hfree]
    · rw [if_neg (hleast start (le_refl _) (by omega))]
      exact ih (start + 1) j (by omega) (by omega) hfree
        (fun j' hs hj' => hleast j' (by omega) hj')

/-- The inner byte scan finds the least qualifying bit of its byte. -/
lemma findFreeInByte_finds (bm : Bitmap) (byteIndex j : Nat) (hj : j < 8)
    (hfree : byteIndex * 8 + j < bm.size ∧ bm.isSet (byteIndex * 8 + j) = false)
    (hleast : ∀ j', j' < j →
      ¬(byteIndex * 8 + j' < bm.size ∧ bm.isSet (byteIndex * 8 + j') = false)) :
    bm.findFreeInByte byteIndex (List.range 8) = some (byteIndex * 8 + j) := by
  rw [List.range_eq_range']
  exact findFreeInByte_go_finds bm byteIndex 8 0 j (Nat.zero_le _) (by omega) hfree
    (fun j' _ hj' => hleast j' hj')

/-- The inner byte scan over `range' start n` yields nothing when no bit
qualifies. -/
lemma findFreeInByte_go_misses (bm : Bitmap) (byteIndex : Nat) :
    ∀ (n start : Nat),
    (∀ j', start ≤ j' → j' < start + n →
      ¬(byteIndex * 8 + j' < bm.size ∧ bm.isSet (byteIndex * 8 + j') = false)) →
    bm.findFreeInByte byteIndex (List.range' start n) = none := by
  intro n
  induction n with
  | zero => intro start _; rfl
  | succ n ih =>
    intro start hnone
    rw [List.range'_succ]
    unfold Bitmap.findFreeInByte
    rw [if_neg (hnone start (le_refl _) (by omega))]
    exact ih (start + 1) (fun j' hs hj' => hnone j' (by omega) (by omega))

/-- The inner byte scan yields nothing when no bit of its byte qualifies. -/
lemma findFreeInByte_misses (bm : Bitmap) (byteIndex : Nat)
    (hnone : ∀ j', j' < 8 →
      ¬(byteIndex * 8 + j' < bm.size ∧ bm.isSet (byteIndex * 8 + j') = false)) :
    bm.findFreeInByte byteIndex (List.range 8) = none := by
  rw [List.range_eq_range']
  exact findFreeInByte_go_misses bm byteIndex 8 0 (fun j' _ hj' => hnone j' (by omega))

/-- A clear in-range bit makes its byte differ from `0xFF`. -/
lemma byte_ne_ff_of_clear (bm : Bitmap) (bit : Nat) (hlt : bit < bm.size)
    (hfree : bm.isSet bit = false) :
    bm.data.getD (bit / 8) 0 ≠ 0xFF := by
  intro hff
  unfold Bitmap.isSet at hfree
  rw [if_neg (by omega), hff] at hfree
  have h8 : bit % 8 < 8 := Nat.mod_lt _ (by omega)
  have : (0xFF : Nat) &&& (1 <<< (bit % 8)) ≠ 0 := by
    interval_cases h : bit % 8 <;> decide
  simp [this] at hfree

/-- The outer scan of `find_first_free`, started at byte `k ≤ bit / 8`
with the matching suffix of the data, reaches the least free bit. -/
lemma findFirstFreeGo_reaches (bm : Bitmap) (bit : Nat)
    (hsz : bm.size ≤ 8 * bm.data.length) (hlt : bit < bm.size)
    (hfree : bm.isSet bit = false) (hleast : ∀ j, j < bit → bm.isSet j = true) :
    ∀ k, k ≤ bit / 8 → bm.findFirstFreeGo k (bm.data.drop k) = some bit := by
  suffices H : ∀ n k, k ≤ bit / 8 → bit / 8 - k = n →
      bm.findFirstFreeGo k (bm.data.drop k) = some bit by
    intro k hk
    exact H (bit / 8 - k) k hk rfl
  intro n
  induction n with
  | zero =>
    intro k hk hn
    have hkeq : k = bit / 8 := by omega
    subst hkeq
    have hklen : bit / 8 < bm.data.length := by omega
    rw [List.drop_eq_get_cons hklen]
    unfold Bitmap.findFirstFreeGo
    have hne : bm.data.get ⟨bit / 8, hklen⟩ ≠ 0xFF := by
      have := byte_ne_ff_of_clear bm bit hlt hfree
      rwa [List.getD_eq_get _ _ hklen] at this
    rw [if_pos hne]
    have hinner := findFreeInByte_finds bm (bit / 8) (bit % 8) (Nat.mod_lt _ (by omega))
      (by constructor
          · omega
          · rw [Nat.div_add_mod' bit 8] at *
            exact hfree)
      (by intro j' hj' hcon
          have : bit / 8 * 8 + j' < bit := by omega
          have := hleast _ this
          simp [this] at hcon)
    rw [Nat.div_add_mod' bit 8] at hinner
    rw [hinner]
  | succ n ih =>
    intro k hk hn
    have hklt : k < bit / 8 := by omega
    have hklen : k < bm.data.length := by omega
    rw [List.drop_eq_get_cons hklen]
    unfold Bitmap.findFirstFreeGo
    have hmiss : bm.findFreeInByte k (List.range 8) = none := by
      apply findFreeInByte_misses
      intro j' hj' hcon
      have hjb : k * 8 + j' < bit := by omega
      have := hleast _ hjb
      simp [this] at hcon
    by_cases hff : bm.data.get ⟨k, hklen⟩ ≠ 0xFF
    · rw [if_pos hff, hmiss]
      exact ih (k + 1) (by omega) (by omega)
    · rw [if_neg hff]
      exact ih (k + 1) (by omega) (by omega)

/-- `Bitmap::find_first_free` returns exactly the least clear bit below
`size` (for a bitmap whose size fits its data, as built by
`Bitmap::from_bytes`). -/
lemma findFirstFree_eq_least (bm : Bitmap) (bit : Nat)
    (hsz : bm.size ≤ 8 * bm.data.length) (hlt : bit < bm.size)
    (hfree : bm.isSet bit = false) (hleast : ∀ j, j < bit → bm.isSet j = true) :
    bm.findFirstFree = some bit := by
  have := findFirstFreeGo_reaches bm bit hsz hlt hfree hleast 0 (Nat.zero_le _)
  simpa [Bitmap.findFirstFree] using this

/-- The descriptor scan of `alloc_block`: with every descriptor before
index `g` reporting no free blocks, descriptor `g` reporting free blocks,
and its bitmap read yielding `some bit`, the scan started at offset `i`
returns `(i + g) * blocks_per_group + bit` (mod `2^32`) and leaves the
state untouched. -/
lemma allocBlockGo_spec (fs : Fs) (bit : Nat) :
    ∀ (g : Nat) (gs : List BlockGroupDescriptor) (i : Nat) (bgd : BlockGroupDescriptor),
    gs.get? g = some bgd →
    (∀ j bg, j < g → gs.get? j = some bg → bg.freeBlocksCount = 0) →
    0 < bgd.freeBlocksCount →
    (Bitmap.fromBytes (padBytes (fs.device bgd.blockBitmap)
      fs.superblock.blockSize)).findFirstFree = some bit →
    allocBlockGo gs i fs =
      some (.ok (((i + g) * fs.superblock.blocksPerGroup + bit) % 4294967296), fs) := by
  intro g
  induction g with
  | zero =>
    intro gs i bgd hg hprev hfree hbit
    match gs, hg with
    | bgd' :: rest, hg =>
      have hbgd : bgd' = bgd := by simpa using hg
      subst hbgd
      unfold allocBlockGo
      rw [if_pos hfree]
      simp only [fsReadBlock, if_neg (by simp : ¬ fs.superblock.blockSize ≠
        fs.superblock.blockSize)]
      rw [hbit]
      simp
  | succ g ih =>
    intro gs i bgd hg hprev hfree hbit
    match gs, hg with
    | bg0 :: rest, hg =>
      have h0 : bg0.freeBlocksCount = 0 := hprev 0 bg0 (Nat.succ_pos _) rfl
      unfold allocBlockGo
      rw [if_neg (show ¬ 0 < bg0.freeBlocksCount by omega)]
      have := ih rest (i + 1) bgd (by simpa using hg)
        (fun j bg hj hjg => hprev (j + 1) bg (by omega) (by simpa using hjg)) hfree hbit
      rw [this]
      have harith : i + 1 + g = i + (g + 1) := by omega
      rw [harith]

/-- C5: on a writable filesystem, when `g` is the first group descriptor
with `free_blocks_count > 0` and `bit` is the least clear bit of that
group's block bitmap, `alloc_block` returns
`g * blocks_per_group + bit` (given that the u32 arithmetic does not
wrap) and leaves the filesystem state — device blocks, bitmap and
descriptor counters — unchanged, so an immediately repeated call returns
the same block number. -/
theorem allocBlock_first_free_frame (fs : Fs) (g bit : Nat)
    (bgd : BlockGroupDescriptor)
    (hro : fs.mountOptions.readOnly = false)
    (hg : fs.blockGroups.get? g = some bgd)
    (hprev : ∀ j bg, j < g → fs.blockGroups.get? j = some bg → bg.freeBlocksCount = 0)
    (hfree : 0 < bgd.freeBlocksCount)
    (hlt : bit < (Bitmap.fromBytes (padBytes (fs.device bgd.blockBitmap)
      fs.superblock.blockSize)).size)
    (hclear : (Bitmap.fromBytes (padBytes (fs.device bgd.blockBitmap)
      fs.superblock.blockSize)).isSet bit = false)
    (hleast : ∀ j, j < bit → (Bitmap.fromBytes (padBytes (fs.device bgd.blockBitmap)
      fs.superblock.blockSize)).isSet j = true)
    (hnw : g * fs.superblock.blocksPerGroup + bit < 4294967296) :
    allocBlock fs = some (.ok (g * fs.superblock.blocksPerGroup + bit), fs) ∧
    (allocBlock fs).map (fun p => p.2) = some fs := by
  have hbit : (Bitmap.fromBytes (padBytes (fs.device bgd.blockBitmap)
      fs.superblock.blockSize)).findFirstFree = some bit := by
    apply findFirstFree_eq_least _ _ _ hlt hclear hleast
    simp [Bitmap.fromBytes]
    omega
  have hmain : allocBlock fs = some (.ok (g * fs.superblock.blocksPerGroup + bit), fs) := by
    unfold allocBlock
    rw [if_neg (by simp [hro])]
    have := allocBlockGo_spec fs bit g fs.blockGroups 0 bgd hg hprev hfree hbit
    rw [this, Nat.zero_add, Nat.mod_eq_of_lt hnw]
  exact ⟨hmain, by rw [hmain]; rfl⟩

/-- The single group descriptor of the C5 witness filesystem. -/
def c5Bgd : BlockGroupDescriptor := ⟨3, 4, 5, 10, 10, 0, 0⟩

/-- A writable 1024-byte-block filesystem whose block bitmap (block 3)
has bits 0..(11) set and bit 12 clear. -/
def c5Fs : Fs where
  device := fun b => if b = 3 then [0xFF, 0x0F] else []
  superblock :=
    { magic := 0xEF53
      state := 1
      blockSize := 1024
      blocksCount := 2048
      blocksPerGroup := 8192
      inodesPerGroup := 128
      inodesCount := 128
      inodeSize := 128
      featureIncompat := 0
      freeBlocksCount := 100
      freeInodesCount := 100
      firstDataBlock := 1
      revLevel := 0 }
  blockGroups := [c5Bgd]
  mountOptions := ⟨false, true, false⟩

set_option maxRecDepth 100000 in
/-- Witness for C5: the first free bit of the witness bitmap is 12, so
`alloc_block` returns block 12 and the state is unchanged. -/
theorem allocBlock_first_free_frame_witness :
    allocBlock c5Fs = some (.ok 12, c5Fs) ∧
    (allocBlock c5Fs).map (fun p => p.2) = some c5Fs := by
  have h := allocBlock_first_free_frame c5Fs 0 12 c5Bgd rfl rfl
    (fun j bg hj _ => absurd hj (Nat.not_lt_zero j))
    (by decide) (by decide) (by decide)
    (by decide) (by decide)
  simpa using h

/-- The length of a filled read buffer is the buffer length. -/
lemma padBytes_length (l : List Nat) (n : Nat) : (padBytes l n).length = n := by
  simp [padBytes]

/-- C6: under traditional mapping with `block_size = 4096`, logical index
0 maps through `block[0]` and index 11 through `block[11]`; index 12
follows the singly indirect block named by `block[12]` and yields the LE
u32 at offset 0 of that block; a zero pointer at the root of each level
is sparse (result 0); and every produced block number is validated
against `blocks_count` (0 or out-of-range collapses to 0). -/
theorem getBlockNumber_traditional_4096 (fs : Fs) (ino : Inode)
    (hx : fs.superblock.featureIncompat &&& 0x0040 = 0)
    (hbs : fs.superblock.blockSize = 4096) :
    Inode.getBlockNumber ino 0 4096 fs =
      some (.ok (validateBlockNum fs (ino.block.getD 0 0)), fs) ∧
    Inode.getBlockNumber ino (11 * 4096) 4096 fs =
      some (.ok (validateBlockNum fs (ino.block.getD 11 0)), fs) ∧
    (ino.block.getD 12 0 = 0 →
      Inode.getBlockNumber ino (12 * 4096) 4096 fs = some (.ok 0, fs)) ∧
    (ino.block.getD 12 0 ≠ 0 →
      Inode.getBlockNumber ino (12 * 4096) 4096 fs =
        some (.ok (validateBlockNum fs
          (leU32 (padBytes (fs.device (ino.block.getD 12 0)) 4096) 0)), fs)) ∧
    (ino.block.getD 13 0 = 0 →
      Inode.getBlockNumber ino ((12 + 1024) * 4096) 4096 fs = some (.ok 0, fs)) ∧
    (ino.block.getD 13 0 ≠ 0 →
      leU32 (padBytes (fs.device (ino.block.getD 13 0)) 4096) 0 = 0 →
      Inode.getBlockNumber ino ((12 + 1024) * 4096) 4096 fs = some (.ok 0, fs)) ∧
    (ino.block.getD 14 0 = 0 →
      Inode.getBlockNumber ino ((12 + 1024 + 1024 * 1024) * 4096) 4096 fs =
        some (.ok 0, fs)) ∧
    validateBlockNum fs 0 = 0 ∧
    (∀ bn, fs.superblock.blocksCount % 4294967296 ≤ bn → validateBlockNum fs bn = 0) := by
  have hext : ¬ (fs.superblock.featureIncompat &&& 0x0040 ≠ 0) := by simp [hx]
  refine ⟨?_, ?_, ?_, ?_, ?_, ?_, ?_, ?_, ?_⟩
  · simp only [Inode.getBlockNumber]
    rw [if_neg hext]
    norm_num
  · simp only [Inode.getBlockNumber]
    rw [if_neg hext]
    norm_num
  · intro h12
    have h12' : ino.block[12]?.getD 0 = 0 := by simpa using h12
    simp only [Inode.getBlockNumber]
    rw [if_neg hext]
    norm_num [h12']
  · intro h12
    have h12' : ¬ ino.block[12]?.getD 0 = 0 := by simpa using h12
    simp only [Inode.getBlockNumber]
    rw [if_neg hext]
    norm_num [h12', Inode.getIndirectBlock, fsReadBlock, hbs, padBytes_length]
  · intro h13
    have h13' : ino.block[13]?.getD 0 = 0 := by simpa using h13
    simp only [Inode.getBlockNumber]
    rw [if_neg hext]
    norm_num [h13']
  · intro h13 hzero
    have h13' : ¬ ino.block[13]?.getD 0 = 0 := by simpa using h13
    have hzero' : leU32 (padBytes (fs.device (ino.block[13]?.getD 0)) 4096) 0 = 0 := by
      simpa using hzero
    simp only [Inode.getBlockNumber]
    rw [if_neg hext]
    norm_num [h13', Inode.getIndirectBlock, fsReadBlock, hbs, padBytes_length, hzero']
  · intro h14
    have h14' : ino.block[14]?.getD 0 = 0 := by simpa using h14
    simp only [Inode.getBlockNumber]
    rw [if_neg hext]
    norm_num [h14']
  · simp [validateBlockNum]
  · intro bn hbn
    simp [validateBlockNum, hbn]

/-- A traditional-mapping (no extents) 4096-byte-block filesystem whose
block 50 is an indirect block with first entry 7. -/
def c6Fs : Fs where
  device := fun b => if b = 50 then [7, 0, 0, 0] else []
  superblock :=
    { magic := 0xEF53
      state := 1
      blockSize := 4096
      blocksCount := 2048
      blocksPerGroup := 32768
      inodesPerGroup := 128
      inodesCount := 128
      inodeSize := 256
      featureIncompat := 0
      freeBlocksCount := 0
      freeInodesCount := 0
      firstDataBlock := 0
      revLevel := 1 }
  blockGroups := []
  mountOptions := ⟨false, true, false⟩

/-- An inode with direct pointers 21..32, singly indirect pointer 50, and
zero doubly/triply indirect pointers. -/
def c6Inode : Inode :=
  { Inode.new 5 with
    block := [21, 22, 23, 24, 25, 26, 27, 28, 29, 30, 31, 32, 50, 0, 0] }

/-- Witness for C6 at the concrete fixtures: direct hits 21 and 32, the
indirect entry 7, and sparse zeros for the doubly/triply roots. -/
theorem getBlockNumber_traditional_4096_witness :
    Inode.getBlockNumber c6Inode 0 4096 c6Fs = some (.ok 21, c6Fs) ∧
    Inode.getBlockNumber c6Inode (11 * 4096) 4096 c6Fs = some (.ok 32, c6Fs) ∧
    Inode.getBlockNumber c6Inode (12 * 4096) 4096 c6Fs = some (.ok 7, c6Fs) ∧
    Inode.getBlockNumber c6Inode ((12 + 1024) * 4096) 4096 c6Fs = some (.ok 0, c6Fs) ∧
    Inode.getBlockNumber c6Inode ((12 + 1024 + 1024 * 1024) * 4096) 4096 c6Fs =
      some (.ok 0, c6Fs) := by
  have h := getBlockNumber_traditional_4096 c6Fs c6Inode (by decide) rfl
  refine ⟨?_, ?_, ?_, ?_, ?_⟩
  · rw [h.1]; rfl
  · rw [h.2.1]; rfl
  · rw [h.2.2.2.1 (by decide)]; rfl
  · exact h.2.2.2.2.1 rfl
  · exact h.2.2.2.2.2.2.1 rfl

/-- The packed size covers the 8-byte header plus the name. -/
lemma paddedSize_ge (n : Nat) : 8 + n ≤ paddedSize n := by
  unfold paddedSize
  omega

/-- The packed size is divisible by... at most three bytes above the raw
size. -/
lemma paddedSize_le (n : Nat) : paddedSize n ≤ 11 + n := by
  unfold paddedSize
  omega

/-- Wrapping u16 subtraction agrees with plain subtraction in range. -/
lemma u16sub_exact (a b : Nat) (h1 : b ≤ a) (h2 : a < 65536) : u16sub a b = a - b := by
  unfold u16sub
  rw [Nat.mod_eq_of_lt (by omega : b < 65536)]
  rw [show a + 65536 - b = (a - b) + 65536 by omega, Nat.add_mod_right]
  exact Nat.mod_eq_of_lt (by omega)

/-- Mapping `getD` over an initial range recovers a prefix. -/
lemma range_map_getD (l : List Nat) :
    ∀ m, m ≤ l.length → (List.range m).map (fun i => l.getD i 0) = l.take m := by
  intro m
  induction m with
  | zero => intro _; simp
  | succ m ih =>
    intro hm
    rw [List.range_succ, List.map_append, ih (by omega), List.take_succ]
    simp [List.getD, List.getElem?_eq_getElem (by omega : m < l.length)]

/-- When the true packed sizes fit in u16, the code's u16-cast sizes agree
with them. -/
lemma sizes_eq_of_small (es : List DirectoryEntry)
    (h : (es.map (fun e => paddedSize e.name.length)).sum < 65536) :
    es.map dirEntrySize = es.map (fun e => paddedSize e.name.length) := by
  apply List.map_congr_left
  intro e he
  unfold dirEntrySize
  apply Nat.mod_eq_of_lt
  have hmem : paddedSize e.name.length ∈ es.map (fun e => paddedSize e.name.length) :=
    List.mem_map_of_mem _ he
  have := List.single_le_sum (fun x _ => Nat.zero_le x) _ hmem
  omega

/-- `recLens` has one entry per directory entry. -/
lemma recLens_length (es : List DirectoryEntry) :
    (Directory.recLens es).length = es.length := by
  simp [Directory.recLens]

/-- `recLens` splits into the packed sizes and a computed final record
length. -/
lemma recLens_structure (es : List DirectoryEntry) (h : es ≠ []) :
    Directory.recLens es = (es.map dirEntrySize).dropLast ++
      [if 4096 < (es.map dirEntrySize).sum % 65536 then
         (es.map dirEntrySize).getD (es.length - 1) 0
       else u16sub 4096 (u16sub ((es.map dirEntrySize).sum % 65536)
         ((es.map dirEntrySize).getD (es.length - 1) 0))] := by
  unfold Directory.recLens
  have hn : 1 ≤ es.length := List.length_pos.mpr h
  obtain ⟨m, hm⟩ : ∃ m, es.length = m + 1 := ⟨es.length - 1, by omega⟩
  rw [hm]
  simp only [Nat.add_sub_cancel]
  rw [List.range_succ, List.map_append]
  congr 1
  · have hcong : (List.range m).map (fun i =>
        if i < m then (es.map dirEntrySize).getD i 0
        else if 4096 < (es.map dirEntrySize).sum % 65536 then
          (es.map dirEntrySize).getD i 0
        else u16sub 4096 (u16sub ((es.map dirEntrySize).sum % 65536)
          ((es.map dirEntrySize).getD i 0))) =
        (List.range m).map (fun i => (es.map dirEntrySize).getD i 0) := by
      apply List.map_congr_left
      intro i hi
      rw [List.mem_range] at hi
      rw [if_pos hi]
    rw [hcong, range_map_getD _ m (by simp [hm])]
    rw [List.dropLast_eq_take]
    congr 1
    simp [hm]
  · simp only [List.map_cons, List.map_nil]
    rw [if_neg (by omega)]

/-- A serialized entry occupies `max (8 + name length) rec_len` bytes. -/
lemma entryToBytes_length (e : DirectoryEntry) (r : Nat) :
    (entryToBytesWithRecLen e r).length = max (8 + e.name.length) r := by
  simp [entryToBytesWithRecLen]
  omega

/-- When every record length covers its entry, the serialized directory's
length is the sum of the record lengths. -/
lemma toBytes_zip_length :
    ∀ (es : List DirectoryEntry) (rs : List Nat), es.length = rs.length →
    (∀ p ∈ es.zip rs, 8 + p.1.name.length ≤ p.2) →
    (((es.zip rs).map (fun p => entryToBytesWithRecLen p.1 p.2)).flatten).length = rs.sum := by
  intro es
  induction es with
  | nil =>
    intro rs hlen _
    match rs, hlen with
    | [], _ => simp
  | cons e es ih =>
    intro rs hlen hbound
    match rs, hlen with
    | r :: rs, hlen =>
      simp only [List.zip_cons_cons, List.map_cons, List.flatten_cons, List.length_append,
        List.sum_cons]
      rw [ih rs (by simpa using hlen) (fun p hp => hbound p (List.mem_cons_of_mem _ hp))]
      rw [entryToBytes_length]
      have := hbound (e, r) (List.mem_cons_self _ _)
      simp at this
      omega

/-- The record length chosen for position `i`, read off the `recLens`
definition. -/
lemma recLens_getD (es : List DirectoryEntry) (i : Nat) (hi : i < es.length) :
    (Directory.recLens es).getD i 0 =
      if i < es.length - 1 then (es.map dirEntrySize).getD i 0
      else if 4096 < (es.map dirEntrySize).sum % 65536 then (es.map dirEntrySize).getD i 0
      else u16sub 4096 (u16sub ((es.map dirEntrySize).sum % 65536)
        ((es.map dirEntrySize).getD i 0)) := by
  unfold Directory.recLens
  rw [List.getD_eq_getElem _ 0 (by simpa using hi)]
  simp

/-- Every element of the true packed-size list is bounded by the total. -/
lemma paddedSize_elem_le_sum (es : List DirectoryEntry) (i : Nat) (hi : i < es.length) :
    paddedSize ((es.get ⟨i, hi⟩).name.length) ≤
      (es.map (fun e => paddedSize e.name.length)).sum := by
  have hmem : paddedSize ((es.get ⟨i, hi⟩).name.length) ∈
      es.map (fun e => paddedSize e.name.length) :=
    List.mem_map_of_mem _ (es.get_mem i hi)
  exact List.single_le_sum (fun x _ => Nat.zero_le x) _ hmem

/-- Under the no-overflow bound, every record length chosen by `to_bytes`
covers its entry's header and name. -/
lemma recLens_bound (es : List DirectoryEntry) (h : es ≠ [])
    (hsum : (es.map (fun e => paddedSize e.name.length)).sum ≤ 4096) :
    ∀ p ∈ es.zip (Directory.recLens es), 8 + p.1.name.length ≤ p.2 := by
  intro p hp
  obtain ⟨⟨i, hilen⟩, hpe⟩ := List.get_of_mem hp
  have hi : i < es.length := List.lt_length_left_of_zip hilen
  have hir : i < (Directory.recLens es).length := List.lt_length_right_of_zip hilen
  rw [List.get_zip] at hpe
  have hp1 : p.1 = es.get ⟨i, hi⟩ := by rw [← hpe]
  have hp2 : p.2 = (Directory.recLens es).getD i 0 := by
    rw [← hpe, List.getD_eq_getElem _ 0 hir]
    simp
  have hsz : es.map dirEntrySize = es.map (fun e => paddedSize e.name.length) :=
    sizes_eq_of_small es (by omega)
  have hgetP : (es.map dirEntrySize).getD i 0 =
      paddedSize ((es.get ⟨i, hi⟩).name.length) := by
    rw [hsz, List.getD_eq_getElem _ 0 (by simpa using hi)]
    simp
  have helem := paddedSize_elem_le_sum es i hi
  have hgeP := paddedSize_ge ((es.get ⟨i, hi⟩).name.length)
  rw [hp1, hp2, recLens_getD es i hi]
  by_cases hlt : i < es.length - 1
  · rw [if_pos hlt, hgetP]
    omega
  · have hieq : i = es.length - 1 := by omega
    rw [if_neg hlt]
    have htot : (es.map dirEntrySize).sum % 65536 =
        (es.map (fun e => paddedSize e.name.length)).sum := by
      rw [hsz]
      exact Nat.mod_eq_of_lt (by omega)
    rw [htot, if_neg (show ¬ 4096 < (es.map (fun e => paddedSize e.name.length)).sum
      by omega), hgetP]
    have hinner : u16sub ((es.map (fun e => paddedSize e.name.length)).sum)
        (paddedSize ((es.get ⟨i, hi⟩).name.length)) =
        (es.map (fun e => paddedSize e.name.length)).sum -
          paddedSize ((es.get ⟨i, hi⟩).name.length) :=
      u16sub_exact _ _ helem (by omega)
    rw [hinner, u16sub_exact _ _ (by omega) (by omega)]
    omega

/-- The packed sizes split around the final one. -/
lemma sizes_split (es : List DirectoryEntry) (h : es ≠ []) :
    ((es.map dirEntrySize).dropLast).sum +
      (es.map dirEntrySize).getD (es.length - 1) 0 = (es.map dirEntrySize).sum := by
  have hne : es.map dirEntrySize ≠ [] := by simpa using h
  have hlast : (es.map dirEntrySize).getD (es.length - 1) 0 =
      (es.map dirEntrySize).getLast hne := by
    have hpos := List.length_pos.mpr h
    rw [List.getLast_eq_getElem, List.getD_eq_getElem _ 0 (by simp; omega)]
    simp
  rw [hlast]
  conv_rhs => rw [← List.dropLast_append_getLast hne]
  simp

/-- C7 (amended): for a non-empty entry list whose packed sizes sum to at
most 4096, `to_bytes` gives every entry but the last its packed size as
`rec_len`, stretches the last one so the record lengths sum to 4096, and
emits exactly 4096 bytes; when the packed sizes sum to more than 4096 —
provided the u16 accumulation does not wrap (sum < 65536) — every entry
including the last keeps its packed size. -/
theorem dir_toBytes_stretch (d : Directory) (h : d.entries ≠ []) :
    ((d.entries.map (fun e => paddedSize e.name.length)).sum ≤ 4096 →
      (Directory.recLens d.entries).sum = 4096 ∧
      (Directory.recLens d.entries).dropLast =
        (d.entries.map (fun e => paddedSize e.name.length)).dropLast ∧
      d.toBytes.length = 4096) ∧
    (4096 < (d.entries.map (fun e => paddedSize e.name.length)).sum →
      (d.entries.map (fun e => paddedSize e.name.length)).sum < 65536 →
      Directory.recLens d.entries =
        d.entries.map (fun e => paddedSize e.name.length)) := by
  constructor
  · intro hsum
    have hsz : d.entries.map dirEntrySize =
        d.entries.map (fun e => paddedSize e.name.length) :=
      sizes_eq_of_small d.entries (by omega)
    have hsplit := sizes_split d.entries h
    have hstruct := recLens_structure d.entries h
    rw [hsz] at hsplit hstruct
    have hlastle : (d.entries.map (fun e => paddedSize e.name.length)).getD
        (d.entries.length - 1) 0 ≤
        (d.entries.map (fun e => paddedSize e.name.length)).sum := by omega
    have hmod : (d.entries.map (fun e => paddedSize e.name.length)).sum % 65536 =
        (d.entries.map (fun e => paddedSize e.name.length)).sum :=
      Nat.mod_eq_of_lt (by omega)
    have hL : (if 4096 <
          (d.entries.map (fun e => paddedSize e.name.length)).sum % 65536 then
        (d.entries.map (fun e => paddedSize e.name.length)).getD (d.entries.length - 1) 0
      else u16sub 4096 (u16sub
        ((d.entries.map (fun e => paddedSize e.name.length)).sum % 65536)
        ((d.entries.map (fun e => paddedSize e.name.length)).getD
          (d.entries.length - 1) 0))) =
        4096 - ((d.entries.map (fun e => paddedSize e.name.length)).sum -
          (d.entries.map (fun e => paddedSize e.name.length)).getD
            (d.entries.length - 1) 0) := by
      rw [hmod, if_neg (by omega)]
      rw [u16sub_exact _ _ hlastle (by omega)]
      rw [u16sub_exact _ _ (by omega) (by omega)]
    rw [hL] at hstruct
    have hrecsum : (Directory.recLens d.entries).sum = 4096 := by
      rw [hstruct]
      simp only [List.sum_append, List.sum_cons, List.sum_nil]
      omega
    refine ⟨hrecsum, ?_, ?_⟩
    · rw [hstruct, List.dropLast_concat]
    · unfold Directory.toBytes
      rw [if_neg h]
      rw [toBytes_zip_length d.entries (Directory.recLens d.entries)
        (recLens_length d.entries).symm (recLens_bound d.entries h hsum)]
      exact hrecsum
  · intro hgt hlt
    have hsz : d.entries.map dirEntrySize =
        d.entries.map (fun e => paddedSize e.name.length) :=
      sizes_eq_of_small d.entries hlt
    have htot : (d.entries.map dirEntrySize).sum % 65536 =
        (d.entries.map (fun e => paddedSize e.name.length)).sum := by
      rw [hsz]
      exact Nat.mod_eq_of_lt hlt
    have hstruct := recLens_structure d.entries h
    rw [hsz] at hstruct
    rw [hstruct, if_pos (show 4096 <
      (d.entries.map (fun e => paddedSize e.name.length)).sum % 65536
      by rw [Nat.mod_eq_of_lt hlt]; omega)]
    have hne : d.entries.map (fun e => paddedSize e.name.length) ≠ [] := by simpa using h
    have hlast : (d.entries.map (fun e => paddedSize e.name.length)).getD
        (d.entries.length - 1) 0 =
        (d.entries.map (fun e => paddedSize e.name.length)).getLast hne := by
      have hpos := List.length_pos.mpr h
      rw [List.getLast_eq_getElem, List.getD_eq_getElem _ 0 (by simp; omega)]
      simp
    rw [hlast, List.dropLast_append_getLast hne]

/-- A directory entry with a 4084-byte name; its packed size is 4092. -/
def ceEntry : DirectoryEntry := ⟨9, 0, 255, 1, List.replicate 4084 97⟩

/-- Seventeen such entries: true packed total 69564, which wraps to 4028
in the u16 accumulator. -/
def ceDir : Directory := ⟨List.replicate 17 ceEntry⟩

/-- Counterexample to C7 as stated: the packed sizes of `ceDir` sum to
69564 > 4096, yet the last entry's `rec_len` (position 16) is not its
packed size 4092 — the u16 total wraps to 4028 ≤ 4096, the stretch branch
fires, and the wrapping subtractions produce 4160. -/
theorem toBytes_overflow_recLen_counterexample :
    4096 < (ceDir.entries.map (fun e => paddedSize e.name.length)).sum ∧
    dirEntrySize ceEntry = 4092 ∧
    (Directory.recLens ceDir.entries).getD 16 0 = 4160 ∧
    (4160 : Nat) ≠ 4092 := by
  have hlen4084 : ceEntry.name.length = 4084 := by
    show (List.replicate 4084 97).length = 4084
    rw [List.length_replicate]
  have hsizeP : paddedSize ceEntry.name.length = 4092 := by
    rw [hlen4084]
    norm_num [paddedSize]
  have hsize : dirEntrySize ceEntry = 4092 := by
    unfold dirEntrySize
    rw [hsizeP]
  have hmapP : ceDir.entries.map (fun e => paddedSize e.name.length) =
      List.replicate 17 4092 := by
    show (List.replicate 17 ceEntry).map _ = _
    rw [List.map_replicate, hsizeP]
  have hmap : ceDir.entries.map dirEntrySize = List.replicate 17 4092 := by
    show (List.replicate 17 ceEntry).map _ = _
    rw [List.map_replicate, hsize]
  have hsumP : (ceDir.entries.map (fun e => paddedSize e.name.length)).sum = 69564 := by
    rw [hmapP, List.sum_replicate]
    norm_num
  have hlen : ceDir.entries.length = 17 := by
    show (List.replicate 17 ceEntry).length = 17
    rw [List.length_replicate]
  refine ⟨by omega, hsize, ?_, by decide⟩
  rw [recLens_getD ceDir.entries 16 (by omega), hlen, hmap, List.sum_replicate]
  rw [List.getD_eq_getElem _ 0 (by rw [List.length_replicate]; omega),
    List.getElem_replicate]
  norm_num [u16sub]


/-- A two-entry directory (`.` and `..`) for the stretch branch of the C7
witness. -/
def c7SmallDir : Directory := ⟨[⟨11, 12, 1, 2, [46]⟩, ⟨2, 12, 2, 2, [46, 46]⟩]⟩

/-- A 350-entry directory with packed total 4200 (no u16 wrap) for the
overflow-free large branch of the C7 witness. -/
def c7BigDir : Directory := ⟨List.replicate 350 ⟨1, 12, 1, 1, [97]⟩⟩

/-- Witness for C7: on the dot/dot-dot directory the record lengths sum
to 4096 and `to_bytes` emits 4096 bytes; on the 350-entry directory
(packed total 4200, above 4096 but below the u16 limit) every record
keeps its packed size. -/
theorem dir_toBytes_stretch_witness :
    ((Directory.recLens c7SmallDir.entries).sum = 4096 ∧
      (Directory.recLens c7SmallDir.entries).dropLast =
        (c7SmallDir.entries.map (fun e => paddedSize e.name.length)).dropLast ∧
      c7SmallDir.toBytes.length = 4096) ∧
    Directory.recLens c7BigDir.entries =
      c7BigDir.entries.map (fun e => paddedSize e.name.length) := by
  have hbig : (c7BigDir.entries.map (fun e => paddedSize e.name.length)).sum = 4200 := by
    show ((List.replicate 350 (⟨1, 12, 1, 1, [97]⟩ : DirectoryEntry)).map _).sum = 4200
    rw [List.map_replicate]
    norm_num [paddedSize, List.sum_replicate]
  have hne : c7BigDir.entries ≠ [] := by
    intro hcon
    have h := congrArg List.length hcon
    rw [show c7BigDir.entries.length = (List.replicate 350
      (⟨1, 12, 1, 1, [97]⟩ : DirectoryEntry)).length from rfl, List.length_replicate] at h
    simp at h
  constructor
  · exact (dir_toBytes_stretch c7SmallDir (by decide)).1 (by decide)
  · exact (dir_toBytes_stretch c7BigDir hne).2 (by omega) (by omega)

/-- The on-disk image of the root inode (ino 2) for the C3 filesystem:
mode `0x41ED` (directory, 0755), size 1024, data block 20. -/
def c3ParentInode : List Nat :=
  writeU32At (writeU32At (writeU16At (List.replicate 128 0) 0 0x41ED) 4 1024) 40 20

/-- The root directory's data block: `.` (ino 2, rec_len 12) and `..`
(ino 2, rec_len 1012), filling the 1024-byte block. -/
def c3DirBlock : List Nat :=
  [2, 0, 0, 0, 12, 0, 1, 2, 46, 0, 0, 0,
   2, 0, 0, 0, 244, 3, 2, 2, 46, 46, 0, 0]

/-- A writable 1024-byte-block filesystem: block bitmap at 3 (first free
bit 12), inode bitmap at 4 (first free bit 3), inode table at 5 with the
root inode at offset 128, root data at block 20. -/
def c3Fs : Fs where
  device := fun b =>
    if b = 5 then List.replicate 128 0 ++ c3ParentInode
    else if b = 20 then c3DirBlock
    else if b = 4 then [0x07]
    else if b = 3 then [0xFF, 0x0F]
    else []
  superblock :=
    { magic := 0xEF53
      state := 1
      blockSize := 1024
      blocksCount := 100
      blocksPerGroup := 8192
      inodesPerGroup := 16
      inodesCount := 16
      inodeSize := 128
      featureIncompat := 0
      freeBlocksCount := 50
      freeInodesCount := 10
      firstDataBlock := 1
      revLevel := 0 }
  blockGroups := [⟨3, 4, 5, 10, 10, 1, 0⟩]
  mountOptions := ⟨false, true, false⟩

/-- A copy whose source exceeds the buffer panics. -/
lemma copyIntoBuf_too_long (buf src : List Nat) (h : buf.length < src.length) :
    copyIntoBuf buf src = none := by
  unfold copyIntoBuf
  rw [if_neg (by omega)]

attribute [irreducible] copyIntoBuf

/-- The parsed root inode of `c3Fs`: a directory of size 1024 whose data
lives in block 20. -/
def c3RootInode : Inode :=
  { Inode.new 2 with
    mode := 0x41ED
    size := 1024
    linksCount := 0
    block := [20, 0, 0, 0, 0, 0, 0, 0, 0, 0, 0, 0, 0, 0, 0] }

set_option maxRecDepth 10000 in
/-- C3: the claim says every public operation is total — in particular
that `create_dir` on a validate-accepted 1024-byte-block filesystem
returns a result and never panics.  On `c3Fs` (which `validate` accepts)
`create_dir` gets past the parent checks and both allocations, serializes
the new `.`/`..` directory to 4096 bytes, and then panics copying those
4096 bytes into its 1024-byte block buffer
(`block_buf[..dir_data.len()].copy_from_slice(..)`) — modelled as `none`. -/
theorem createDir_blockSize1024_panics :
    SuperBlock.validate c3Fs.superblock = .ok () ∧
    createDir 2 [120] 0x1ED c3Fs = none := by
  refine ⟨rfl, ?_⟩
  have hcopy : copyIntoBuf (List.replicate 1024 0)
      (Directory.toBytes (Directory.mk
        [⟨4, 12, 1, 2, [46]⟩, ⟨2, 12, 2, 2, [46, 46]⟩])) = none := by
    have hlen := ((dir_toBytes_stretch (Directory.mk
      [⟨4, 12, 1, 2, [46]⟩, ⟨2, 12, 2, 2, [46, 46]⟩]) (by decide)).1 (by decide)).2.2
    apply copyIntoBuf_too_long
    rw [hlen, List.length_replicate]
    omega
  have h1 : getInode 2 c3Fs = some (.ok c3RootInode, c3Fs) := by rfl
  have h2 : readDir 2 c3Fs =
      some (.ok [⟨2, 12, 1, 2, [46]⟩, ⟨2, 1012, 2, 2, [46, 46]⟩], c3Fs) := by rfl
  have h3 : allocInode c3Fs = some (.ok 4, c3Fs) := by rfl
  have h4 : allocBlock c3Fs = some (.ok 12, c3Fs) := by rfl
  have hmode : ¬ (c3RootInode.mode &&& IFDIR ≠ IFDIR) := by decide
  have hany : ¬ (([⟨2, 12, 1, 2, [46]⟩, ⟨2, 1012, 2, 2, [46, 46]⟩] :
      List DirectoryEntry).any (fun e => e.name = [120]) = true) := by decide
  have hbs : c3Fs.superblock.blockSize = 1024 := rfl
  have hguard : createDir 2 [120] 0x1ED c3Fs = createDirBody 2 [120] 0x1ED c3Fs := by
    unfold createDir
    rw [if_neg (by decide)]
  rw [hguard]
  unfold createDirBody
  simp only [h1, h2, h3, h4]
  rw [if_neg hmode, if_neg hany]
  simp only [h3, h4, hbs]
  rw [hcopy]

end Ext4
